import Mathlib

/-!
Formal verification of the statistical core of the growth-experimentation
portfolio (two-arm A/B testing pipeline).

The Python sources are shallowly embedded over exact rational arithmetic:

* pure numeric code is translated to computable functions over `ℚ`;
* transcendental library routines (normal CDF and quantile, square root,
  natural logarithm, chi-square survival function, arcsine) are passed in as
  explicit function arguments; theorems assume only the mathematical
  properties of the genuine routines that the proofs need, and each witness
  instantiates them with concrete rational functions satisfying those
  properties;
* Python exceptions are modelled with `Except`; NaN-producing numpy
  operations that do not raise are noted where they occur — where no claim
  depends on the numeric value produced there, rationals with the
  division-by-zero-equals-zero convention stand in for non-finite floats;
* the numpy global random state is modelled as an explicit stream of
  underlying uniform draws plus a cursor, threaded through the Bayesian
  Monte Carlo code exactly where `np.random` is consulted.
-/

namespace GrowthExp

/-! ## Generic fold bounds used for the step-down and step-up corrections -/

theorem foldl_max_le {c : ℚ} :
    ∀ (l : List ℚ) (a : ℚ), a ≤ c → (∀ x ∈ l, x ≤ c) → l.foldl max a ≤ c
  | [], _, ha, _ => ha
  | x :: l, a, ha, h =>
    foldl_max_le l (max a x) (max_le ha (h x (List.mem_cons_self x l)))
      (fun y hy => h y (List.mem_cons_of_mem x hy))

theorem seed_le_foldl_max : ∀ (l : List ℚ) (a : ℚ), a ≤ l.foldl max a
  | [], _ => le_refl _
  | x :: l, a => le_trans (le_max_left a x) (seed_le_foldl_max l (max a x))

theorem le_foldl_max : ∀ (l : List ℚ) (a x : ℚ), x ∈ l → x ≤ l.foldl max a
  | y :: l, a, x, hx => by
    rcases List.mem_cons.mp hx with h | h
    · subst h
      exact le_trans (le_max_right a x) (seed_le_foldl_max l (max a x))
    · exact le_foldl_max l (max a y) x h

theorem le_foldl_min {c : ℚ} :
    ∀ (l : List ℚ) (a : ℚ), c ≤ a → (∀ x ∈ l, c ≤ x) → c ≤ l.foldl min a
  | [], _, ha, _ => ha
  | x :: l, a, ha, h =>
    le_foldl_min l (min a x) (le_min ha (h x (List.mem_cons_self x l)))
      (fun y hy => h y (List.mem_cons_of_mem x hy))

theorem foldl_min_le_seed : ∀ (l : List ℚ) (a : ℚ), l.foldl min a ≤ a
  | [], _ => le_refl _
  | x :: l, a => le_trans (foldl_min_le_seed l (min a x)) (min_le_left a x)

theorem foldl_min_le : ∀ (l : List ℚ) (a x : ℚ), x ∈ l → l.foldl min a ≤ x
  | y :: l, a, x, hx => by
    rcases List.mem_cons.mp hx with h | h
    · subst h
      exact le_trans (foldl_min_le_seed l (min a x)) (min_le_right a x)
    · exact foldl_min_le l (min a y) x h

/-! ## Segment analyzer: multiple-testing corrections

Embedding of `SegmentAnalyzer._apply_correction`
(`src/segment_analyzer.py`, lines 106-154).  Python sorts the enumerated
p-values stably by value; `List.insertionSort` is likewise stable.  The
loop variables `cummax` (Holm) and `cummin` (Benjamini-Hochberg) at a given
rank equal a fold of `max` (seed `0.0`) over the adjusted values of all
ranks up to it, resp. a fold of `min` (seed `1.0`) over the adjusted values
of all ranks from it upward, which is how they are rendered here. -/

/-- `CorrectionMethod` enum from `segment_analyzer.py`. -/
inductive CorrectionMethod where
  | none
  | bonferroni
  | holm
  | fdr
deriving DecidableEq, Repr

/-- `indexed = list(enumerate(p_values)); indexed.sort(key=lambda x: x[1])`. -/
def sortIndexed (ps : List ℚ) : List (ℕ × ℚ) :=
  List.insertionSort (fun a b => a.2 ≤ b.2) ps.enum

/-- Value of the Holm loop variable `cummax` after processing rank `r`:
`max` of `p * (n - rank)` over ranks `0..r`, seeded with `0.0`. -/
def holmCummax (sorted : List (ℕ × ℚ)) (n r : ℕ) : ℚ :=
  (((sorted.take (r+1)).enum).map
    (fun e => e.2.2 * ((n : ℚ) - (e.1 : ℚ)))).foldl max 0

/-- Value of the Benjamini-Hochberg loop variable `cummin` when the
descending walk reaches rank `r`: `min` of `p * n / (rank + 1)` over ranks
`r..n-1`, seeded with `1.0`. -/
def fdrCummin (sorted : List (ℕ × ℚ)) (n r : ℕ) : ℚ :=
  (((sorted.enum).drop r).map
    (fun e => e.2.2 * (n : ℚ) / ((e.1 : ℚ) + 1))).foldl min 1

/-- `SegmentAnalyzer._apply_correction(p_values)`.  The Python code writes
`adjusted[orig_idx] = ...` once for every entry of the sorted enumeration
(whose first components are exactly `0..n-1`), starting from `[0.0] * n`;
the embedding reads each original index back out of the sorted list. -/
def applyCorrection (method : CorrectionMethod) (ps : List ℚ) : List ℚ :=
  let n := ps.length
  match method with
  | .none => ps
  | .bonferroni => ps.map (fun p => min (p * (n : ℚ)) 1)
  | .holm =>
    let indexed := sortIndexed ps
    (List.range n).map (fun i =>
      match indexed.findIdx? (fun e => e.1 == i) with
      | some r => min (holmCummax indexed n r) 1
      | Option.none => 0)
  | .fdr =>
    let indexed := sortIndexed ps
    (List.range n).map (fun i =>
      match indexed.findIdx? (fun e => e.1 == i) with
      | some r => min (fdrCummin indexed n r) 1
      | Option.none => 0)

instance : IsTotal (ℕ × ℚ) (fun a b => a.2 ≤ b.2) := ⟨fun a b => le_total a.2 b.2⟩

instance : IsTrans (ℕ × ℚ) (fun a b => a.2 ≤ b.2) := ⟨fun _ _ _ h1 h2 => le_trans h1 h2⟩

instance : IsRefl (ℕ × ℚ) (fun a b => a.2 ≤ b.2) := ⟨fun _ => le_refl _⟩

theorem sortIndexed_perm (ps : List ℚ) : List.Perm (sortIndexed ps) ps.enum :=
  List.perm_insertionSort _ _

theorem sortIndexed_length (ps : List ℚ) : (sortIndexed ps).length = ps.length := by
  rw [(sortIndexed_perm ps).length_eq]
  simp

theorem sortIndexed_sorted (ps : List ℚ) :
    List.Sorted (fun a b : ℕ × ℚ => a.2 ≤ b.2) (sortIndexed ps) :=
  List.sorted_insertionSort _ _

theorem sortIndexed_mem {ps : List ℚ} {e : ℕ × ℚ} (he : e ∈ sortIndexed ps) :
    ps[e.1]? = some e.2 := by
  have h : e ∈ ps.enum := (sortIndexed_perm ps).mem_iff.mp he
  obtain ⟨i, a⟩ := e
  exact List.mk_mem_enum_iff_getElem?.mp h

theorem sortIndexed_snd_mem {ps : List ℚ} {e : ℕ × ℚ} (he : e ∈ sortIndexed ps) :
    e.2 ∈ ps := by
  have := sortIndexed_mem he
  exact List.getElem?_mem this

/-- The stable sort of the enumerated p-values locates every original index
`i < n` at a unique rank `r`, carrying exactly the raw p-value `ps[i]`. -/
theorem sortIndexed_rank (ps : List ℚ) (i : ℕ) (hi : i < ps.length) :
    ∃ r, (sortIndexed ps).findIdx? (fun e => e.1 == i) = some r ∧
      ∃ hr : r < (sortIndexed ps).length,
        (sortIndexed ps).get ⟨r, hr⟩ = (i, ps.get ⟨i, hi⟩) := by
  have hmem : (i, ps.get ⟨i, hi⟩) ∈ sortIndexed ps := by
    rw [(sortIndexed_perm ps).mem_iff]
    exact List.mk_mem_enum_iff_getElem?.mpr (by simp [List.getElem?_eq_getElem hi])
  cases hfind : (sortIndexed ps).findIdx? (fun e => e.1 == i) with
  | none =>
    have := List.findIdx?_eq_none_iff.mp hfind _ hmem
    simp at this
  | some r =>
    obtain ⟨hr, hp, -⟩ := List.findIdx?_eq_some_iff_getElem.mp hfind
    refine ⟨r, rfl, hr, ?_⟩
    have h1 : ((sortIndexed ps).get ⟨r, hr⟩).1 = i := by
      simpa using hp
    have hmem2 : (sortIndexed ps).get ⟨r, hr⟩ ∈ sortIndexed ps := List.get_mem _ _ _
    have h2 := sortIndexed_mem hmem2
    rw [h1, List.getElem?_eq_getElem hi] at h2
    have h3 : ((sortIndexed ps).get ⟨r, hr⟩).2 = ps.get ⟨i, hi⟩ := by
      simpa using (Option.some.inj h2).symm
    exact Prod.ext h1 h3

/-- Upper bound for the Holm cumulative maximum: every `p_j * (n - j)` with
`j ≤ r` is at most `p_r * n` on a sorted list of nonnegative values. -/
theorem holmCummax_le {s : List (ℕ × ℚ)}
    (hs : List.Sorted (fun a b : ℕ × ℚ => a.2 ≤ b.2) s)
    (hb : ∀ e ∈ s, 0 ≤ e.2) {n : ℕ} (hn : s.length = n) (r : ℕ) (hr : r < s.length) :
    holmCummax s n r ≤ (s.get ⟨r, hr⟩).2 * (n : ℚ) := by
  subst hn
  have hr2 : 0 ≤ (s.get ⟨r, hr⟩).2 := hb _ (List.get_mem _ _ _)
  apply foldl_max_le _ _ (mul_nonneg hr2 (by positivity))
  intro x hx
  obtain ⟨e, he, rfl⟩ := List.mem_map.mp hx
  obtain ⟨j, y⟩ := e
  have hy : (s.take (r+1))[j]? = some y := List.mk_mem_enum_iff_getElem?.mp he
  have hjlen : j < (s.take (r+1)).length := by
    by_contra hcon
    rw [List.getElem?_eq_none (le_of_not_lt hcon)] at hy
    exact Option.noConfusion hy
  have hjr : j ≤ r := by
    have := hjlen
    simp only [List.length_take] at this
    omega
  have hjs : j < s.length := by
    have := hjlen
    simp only [List.length_take] at this
    omega
  have hyj : y = s.get ⟨j, hjs⟩ := by
    rw [List.getElem?_eq_getElem hjlen] at hy
    have := Option.some.inj hy
    rw [← this]
    simp [List.getElem_take]
  have hy2 : y.2 ≤ (s.get ⟨r, hr⟩).2 := by
    rw [hyj]
    exact hs.rel_get_of_le (by exact hjr)
  have hy0 : 0 ≤ y.2 := by
    rw [hyj]
    exact hb _ (List.get_mem _ _ _)
  have hnj0 : (0 : ℚ) ≤ (s.length : ℚ) - (j : ℚ) := by
    have : (j : ℚ) ≤ (s.length : ℚ) := by exact_mod_cast le_of_lt hjs
    linarith
  have hnjn : (s.length : ℚ) - (j : ℚ) ≤ (s.length : ℚ) := by
    have : (0 : ℚ) ≤ (j : ℚ) := by positivity
    linarith
  calc y.2 * ((s.length : ℚ) - (j : ℚ)) ≤ (s.get ⟨r, hr⟩).2 * (s.length : ℚ) :=
    mul_le_mul hy2 hnjn hnj0 hr2

/-- Lower bound for the Holm cumulative maximum: the rank-`r` term itself. -/
theorem le_holmCummax {s : List (ℕ × ℚ)} {n : ℕ} (hn : s.length = n)
    (r : ℕ) (hr : r < s.length) :
    (s.get ⟨r, hr⟩).2 * ((n : ℚ) - (r : ℚ)) ≤ holmCummax s n r := by
  subst hn
  apply le_foldl_max
  apply List.mem_map.mpr
  refine ⟨(r, s.get ⟨r, hr⟩), ?_, rfl⟩
  apply List.mk_mem_enum_iff_getElem?.mpr
  have hlt : r < (s.take (r+1)).length := by
    simp [List.length_take]
    omega
  rw [List.getElem?_eq_getElem hlt]
  simp [List.getElem_take]

/-- Upper bound for the Benjamini-Hochberg cumulative minimum: the rank-`r`
term itself. -/
theorem fdrCummin_le {s : List (ℕ × ℚ)} {n : ℕ} (hn : s.length = n)
    (r : ℕ) (hr : r < s.length) :
    fdrCummin s n r ≤ (s.get ⟨r, hr⟩).2 * (n : ℚ) / ((r : ℚ) + 1) := by
  subst hn
  apply foldl_min_le
  apply List.mem_map.mpr
  refine ⟨(r, s.get ⟨r, hr⟩), ?_, rfl⟩
  apply List.getElem?_mem (n := 0)
  rw [List.getElem?_drop]
  simp [List.getElem?_enum, List.getElem?_eq_getElem hr]

theorem fdrCummin_le_one (s : List (ℕ × ℚ)) (n r : ℕ) : fdrCummin s n r ≤ 1 :=
  foldl_min_le_seed _ _

/-- Lower bound for the Benjamini-Hochberg cumulative minimum: every term of
the suffix is at least the rank-`r` p-value on a sorted list of values in
`[0, 1]`. -/
theorem le_fdrCummin {s : List (ℕ × ℚ)}
    (hs : List.Sorted (fun a b : ℕ × ℚ => a.2 ≤ b.2) s)
    (hb : ∀ e ∈ s, 0 ≤ e.2 ∧ e.2 ≤ 1) {n : ℕ} (hn : s.length = n)
    (r : ℕ) (hr : r < s.length) :
    (s.get ⟨r, hr⟩).2 ≤ fdrCummin s n r := by
  subst hn
  apply le_foldl_min _ _ ((hb _ (List.get_mem _ _ _)).2)
  intro x hx
  obtain ⟨e, he, rfl⟩ := List.mem_map.mp hx
  obtain ⟨k, hk⟩ := List.mem_iff_getElem?.mp he
  rw [List.getElem?_drop, List.getElem?_enum] at hk
  cases hsk : s[r + k]? with
  | none => rw [hsk] at hk; exact Option.noConfusion hk
  | some y =>
    rw [hsk] at hk
    have hkey := Option.some.inj hk
    have hrk : r + k < s.length := by
      by_contra hcon
      rw [List.getElem?_eq_none (le_of_not_lt hcon)] at hsk
      exact Option.noConfusion hsk
    have hys : y = s.get ⟨r + k, hrk⟩ := by
      rw [List.getElem?_eq_getElem hrk] at hsk
      simpa using (Option.some.inj hsk).symm
    rw [← hkey]
    simp only
    have h1 : (s.get ⟨r, hr⟩).2 ≤ y.2 := by
      rw [hys]
      exact hs.rel_get_of_le (by exact Nat.le_add_right r k)
    have h2 : (1 : ℚ) ≤ (s.length : ℚ) / ((r : ℚ) + (k : ℚ) + 1) := by
      rw [le_div_iff₀ (by positivity), one_mul]
      have : r + k + 1 ≤ s.length := hrk
      exact_mod_cast this
    have h0 : 0 ≤ y.2 := by
      rw [hys]
      exact (hb _ (List.get_mem _ _ _)).1
    calc (s.get ⟨r, hr⟩).2 ≤ y.2 := h1
      _ = y.2 * 1 := (mul_one _).symm
      _ ≤ y.2 * ((s.length : ℚ) / ((r : ℚ) + (k : ℚ) + 1)) :=
        mul_le_mul_of_nonneg_left h2 h0
      _ = y.2 * (s.length : ℚ) / ((r + k : ℕ) + 1) := by push_cast; ring

theorem applyCorrection_bonferroni_getD (ps : List ℚ) (i : ℕ) (hi : i < ps.length) :
    (applyCorrection .bonferroni ps).getD i 0 =
      min (ps.get ⟨i, hi⟩ * (ps.length : ℚ)) 1 := by
  simp [applyCorrection, List.getD_eq_getElem?_getD, List.getElem?_eq_getElem hi]

theorem applyCorrection_rank_getD (ps : List ℚ) (i : ℕ) (hi : i < ps.length) :
    ∃ r, ∃ hr : r < (sortIndexed ps).length,
      (sortIndexed ps).get ⟨r, hr⟩ = (i, ps.get ⟨i, hi⟩) ∧
      (applyCorrection .holm ps).getD i 0 =
        min (holmCummax (sortIndexed ps) ps.length r) 1 ∧
      (applyCorrection .fdr ps).getD i 0 =
        min (fdrCummin (sortIndexed ps) ps.length r) 1 := by
  obtain ⟨r, hfind, hr, heq⟩ := sortIndexed_rank ps i hi
  refine ⟨r, hr, heq, ?_, ?_⟩ <;>
    simp [applyCorrection, List.getD_eq_getElem?_getD, List.getElem?_range hi, hfind]

/-- C4: on any non-empty list of raw p-values in `[0, 1]`, applying the three
corrections of `SegmentAnalyzer._apply_correction` to the same list yields,
elementwise at every original index, Benjamini-Hochberg-adjusted p at most
Holm-adjusted p, which is at most Bonferroni-adjusted p. -/
theorem correction_ordering (ps : List ℚ) (hne : ps ≠ [])
    (hb : ∀ p ∈ ps, 0 ≤ p ∧ p ≤ 1) (i : ℕ) (hi : i < ps.length) :
    (applyCorrection .fdr ps).getD i 0 ≤ (applyCorrection .holm ps).getD i 0 ∧
    (applyCorrection .holm ps).getD i 0 ≤
      (applyCorrection .bonferroni ps).getD i 0 := by
  obtain ⟨r, hr, heq, hholm, hfdr⟩ := applyCorrection_rank_getD ps i hi
  have hs := sortIndexed_sorted ps
  have hb01 : ∀ e ∈ sortIndexed ps, 0 ≤ e.2 ∧ e.2 ≤ 1 :=
    fun e he => hb _ (sortIndexed_snd_mem he)
  have hb0 : ∀ e ∈ sortIndexed ps, 0 ≤ e.2 := fun e he => (hb01 e he).1
  have hlen := sortIndexed_length ps
  have hval : ((sortIndexed ps).get ⟨r, hr⟩).2 = ps.get ⟨i, hi⟩ := by rw [heq]
  have hp0 : 0 ≤ ps.get ⟨i, hi⟩ := (hb _ (List.get_mem _ _ _)).1
  have hrn : r < ps.length := hlen ▸ hr
  constructor
  · rw [hholm, hfdr]
    apply le_min
    · have step1 : fdrCummin (sortIndexed ps) ps.length r ≤
          ((sortIndexed ps).get ⟨r, hr⟩).2 * (ps.length : ℚ) /
            ((r : ℚ) + 1) := fdrCummin_le hlen r hr
      have hdiv : ((ps.length : ℚ)) / ((r : ℚ) + 1) ≤
          ((ps.length : ℚ)) - (r : ℚ) := by
        rw [div_le_iff₀ (by positivity)]
        have h1 : r + 1 ≤ ps.length := hrn
        have h2 : ((r : ℚ) + 1) ≤ ((ps.length : ℚ)) := by
          exact_mod_cast h1
        nlinarith
      have step2 : ((sortIndexed ps).get ⟨r, hr⟩).2 * ((ps.length : ℚ)) /
            ((r : ℚ) + 1) ≤
          ((sortIndexed ps).get ⟨r, hr⟩).2 *
            (((ps.length : ℚ)) - (r : ℚ)) := by
        rw [mul_div_assoc]
        apply mul_le_mul_of_nonneg_left hdiv
        rw [hval]
        exact hp0
      have step3 := le_holmCummax (s := sortIndexed ps) hlen r hr
      calc min (fdrCummin (sortIndexed ps) ps.length r) 1
          ≤ fdrCummin (sortIndexed ps) ps.length r := min_le_left _ _
        _ ≤ holmCummax (sortIndexed ps) ps.length r :=
            le_trans step1 (le_trans step2 step3)
    · exact min_le_right _ _
  · rw [hholm, applyCorrection_bonferroni_getD ps i hi]
    apply min_le_min _ (le_refl 1)
    have := holmCummax_le hs hb0 hlen r hr
    rw [hval] at this
    exact this

/-- C10: each of the three corrections preserves the length of the p-value
list and, at every index, returns an adjusted p-value lying between the
corresponding raw p-value and `1`. -/
theorem correction_bounds (ps : List ℚ) (hne : ps ≠ [])
    (hb : ∀ p ∈ ps, 0 ≤ p ∧ p ≤ 1) (m : CorrectionMethod)
    (hm : m = .bonferroni ∨ m = .holm ∨ m = .fdr) :
    (applyCorrection m ps).length = ps.length ∧
    ∀ (i : ℕ) (hi : i < ps.length),
      ps.getD i 0 ≤ (applyCorrection m ps).getD i 0 ∧
      (applyCorrection m ps).getD i 0 ≤ 1 := by
  have hb01 : ∀ e ∈ sortIndexed ps, 0 ≤ e.2 ∧ e.2 ≤ 1 :=
    fun e he => hb _ (sortIndexed_snd_mem he)
  have hs := sortIndexed_sorted ps
  have hlen := sortIndexed_length ps
  rcases hm with rfl | rfl | rfl
  · refine ⟨by simp [applyCorrection], fun i hi => ?_⟩
    have hgetD : ps.getD i 0 = ps.get ⟨i, hi⟩ := by
      simp [List.getD_eq_getElem?_getD, List.getElem?_eq_getElem hi]
    rw [applyCorrection_bonferroni_getD ps i hi, hgetD]
    have hp := hb _ (List.get_mem ps i hi)
    have hn1 : (1 : ℚ) ≤ (ps.length : ℚ) := by
      have : 1 ≤ ps.length := Nat.one_le_iff_ne_zero.mpr
        (fun h => hne (List.length_eq_zero.mp h))
      exact_mod_cast this
    exact ⟨le_min (le_mul_of_one_le_right hp.1 hn1) hp.2, min_le_right _ _⟩
  · refine ⟨by simp [applyCorrection], fun i hi => ?_⟩
    have hgetD : ps.getD i 0 = ps.get ⟨i, hi⟩ := by
      simp [List.getD_eq_getElem?_getD, List.getElem?_eq_getElem hi]
    obtain ⟨r, hr, heq, hholm, -⟩ := applyCorrection_rank_getD ps i hi
    have hval : ((sortIndexed ps).get ⟨r, hr⟩).2 = ps.get ⟨i, hi⟩ := by rw [heq]
    have hp := hb _ (List.get_mem ps i hi)
    rw [hholm, hgetD]
    refine ⟨le_min ?_ hp.2, min_le_right _ _⟩
    have hrn : r < ps.length := hlen ▸ hr
    have hnr1 : (1 : ℚ) ≤ ((ps.length : ℚ)) - (r : ℚ) := by
      have h1 : r + 1 ≤ ps.length := hrn
      have h2 : ((r : ℚ) + 1) ≤ ((ps.length : ℚ)) := by exact_mod_cast h1
      linarith
    calc ps.get ⟨i, hi⟩ = ps.get ⟨i, hi⟩ * 1 := (mul_one _).symm
      _ ≤ ((sortIndexed ps).get ⟨r, hr⟩).2 *
            (((ps.length : ℚ)) - (r : ℚ)) := by
          rw [hval]
          exact mul_le_mul_of_nonneg_left hnr1 hp.1
      _ ≤ holmCummax (sortIndexed ps) ps.length r :=
          le_holmCummax hlen r hr
  · refine ⟨by simp [applyCorrection], fun i hi => ?_⟩
    have hgetD : ps.getD i 0 = ps.get ⟨i, hi⟩ := by
      simp [List.getD_eq_getElem?_getD, List.getElem?_eq_getElem hi]
    obtain ⟨r, hr, heq, -, hfdr⟩ := applyCorrection_rank_getD ps i hi
    have hval : ((sortIndexed ps).get ⟨r, hr⟩).2 = ps.get ⟨i, hi⟩ := by rw [heq]
    have hp := hb _ (List.get_mem ps i hi)
    rw [hfdr, hgetD]
    refine ⟨le_min ?_ hp.2, min_le_right _ _⟩
    have := le_fdrCummin hs hb01 hlen r hr
    rw [hval] at this
    exact this

/-- C4 witness: evaluation at the concrete p-value list `[1/50, 3/5, 1/100]`. -/
theorem correction_ordering_witness :
    ([(1:ℚ)/50, 3/5, 1/100] ≠ [] ∧ (∀ p ∈ [(1:ℚ)/50, 3/5, 1/100], 0 ≤ p ∧ p ≤ 1) ∧
      1 < [(1:ℚ)/50, 3/5, 1/100].length) ∧
    ((applyCorrection .fdr [(1:ℚ)/50, 3/5, 1/100]).getD 1 0 ≤
        (applyCorrection .holm [(1:ℚ)/50, 3/5, 1/100]).getD 1 0 ∧
      (applyCorrection .holm [(1:ℚ)/50, 3/5, 1/100]).getD 1 0 ≤
        (applyCorrection .bonferroni [(1:ℚ)/50, 3/5, 1/100]).getD 1 0) :=
  ⟨⟨by simp, by intro p hp; fin_cases hp <;> norm_num, by simp⟩,
    correction_ordering [(1:ℚ)/50, 3/5, 1/100] (by simp)
      (by intro p hp; fin_cases hp <;> norm_num) 1 (by simp)⟩

/-- C10 witness: evaluation at the concrete p-value list `[1/50, 3/5, 1/100]`
under the Holm correction at index `0`. -/
theorem correction_bounds_witness :
    ([(1:ℚ)/50, 3/5, 1/100] ≠ [] ∧ (∀ p ∈ [(1:ℚ)/50, 3/5, 1/100], 0 ≤ p ∧ p ≤ 1)) ∧
    ((applyCorrection .holm [(1:ℚ)/50, 3/5, 1/100]).length =
        [(1:ℚ)/50, 3/5, 1/100].length ∧
      ∀ (i : ℕ) (hi : i < [(1:ℚ)/50, 3/5, 1/100].length),
        [(1:ℚ)/50, 3/5, 1/100].getD i 0 ≤
          (applyCorrection .holm [(1:ℚ)/50, 3/5, 1/100]).getD i 0 ∧
        (applyCorrection .holm [(1:ℚ)/50, 3/5, 1/100]).getD i 0 ≤ 1) :=
  ⟨⟨by simp, by intro p hp; fin_cases hp <;> norm_num⟩,
    correction_bounds [(1:ℚ)/50, 3/5, 1/100] (by simp)
      (by intro p hp; fin_cases hp <;> norm_num) .holm
      (Or.inr (Or.inl rfl))⟩

/-! ## Bayesian engine: result container and recommendation mapping

Embedding of `BayesianResult` and `BayesianResult.get_recommendation`
(`src/bayesian_engine.py`, lines 19-83). -/

/-- `BayesianResult` dataclass from `bayesian_engine.py`. -/
structure BayesianResult where
  control_posterior : ℚ × ℚ
  variant_posterior : ℚ × ℚ
  control_conversion : ℚ
  variant_conversion : ℚ
  control_sample_size : ℕ
  variant_sample_size : ℕ
  probability_variant_better : ℚ
  credible_interval : ℚ × ℚ
  expected_lift : ℚ
  expected_loss_choosing_variant : ℚ
  expected_loss_choosing_control : ℚ
deriving Repr, DecidableEq

/-- `BayesianResult.get_recommendation` (`bayesian_engine.py`, lines 72-83). -/
def BayesianResult.getRecommendation (r : BayesianResult) : String :=
  if r.probability_variant_better ≥ 95/100 then "SHIP"
  else if r.probability_variant_better ≤ 5/100 then "ROLLBACK"
  else if r.probability_variant_better ≥ 80/100 then "LIKELY_SHIP"
  else if r.probability_variant_better ≤ 20/100 then "LIKELY_ROLLBACK"
  else "CONTINUE_TESTING"

/-- C7: the Bayesian recommendation is a pure function of the probability
`p` that the variant beats control, realizing the first-match bands
SHIP iff `p ≥ 0.95`, otherwise ROLLBACK iff `p ≤ 0.05`, otherwise
LIKELY_SHIP iff `p ≥ 0.80`, otherwise LIKELY_ROLLBACK iff `p ≤ 0.20`,
otherwise CONTINUE_TESTING — stated here as the equivalent disjoint band
characterization, valid for every probability value. -/
theorem bayesian_recommendation_bands (r : BayesianResult) :
    (r.getRecommendation = "SHIP" ↔ 95/100 ≤ r.probability_variant_better) ∧
    (r.getRecommendation = "ROLLBACK" ↔ r.probability_variant_better ≤ 5/100) ∧
    (r.getRecommendation = "LIKELY_SHIP" ↔
      (80/100 ≤ r.probability_variant_better ∧
        r.probability_variant_better < 95/100)) ∧
    (r.getRecommendation = "LIKELY_ROLLBACK" ↔
      (5/100 < r.probability_variant_better ∧
        r.probability_variant_better ≤ 20/100)) ∧
    (r.getRecommendation = "CONTINUE_TESTING" ↔
      (20/100 < r.probability_variant_better ∧
        r.probability_variant_better < 80/100)) := by
  unfold BayesianResult.getRecommendation
  set p := r.probability_variant_better with hp
  split_ifs with h1 h2 h3 h4 <;>
    refine ⟨?_, ?_, ?_, ?_, ?_⟩ <;> simp_all <;>
    first
      | linarith
      | (intro hcon; linarith)

/-! ## Sequential testing: alpha-spending plans

Embedding of `SequentialTester` (`src/sequential_testing.py`).  The scipy
and numpy transcendental routines are abstracted into a `MathLib` record of
rational functions; theorems assume only the properties of the genuine
routines they need.  `np.inf` critical values are modelled with `⊤` in
`WithTop ℚ`. -/

/-- Abstract interface for the transcendental library routines used by the
Python sources (scipy `stats.norm.cdf` / `stats.norm.ppf`, numpy `sqrt`,
`log`, `e`). -/
structure MathLib where
  normCdf : ℚ → ℚ
  normPpf : ℚ → ℚ
  sqrt : ℚ → ℚ
  log : ℚ → ℚ
  e : ℚ

/-- `SpendingFunction` enum from `sequential_testing.py`. -/
inductive SpendingFunction where
  | obrien_fleming
  | pocock
  | haybittle_peto
deriving DecidableEq, Repr

/-- `InterimResult` dataclass from `sequential_testing.py`. -/
structure InterimResult where
  look_number : ℕ
  information_fraction : ℚ
  z_statistic : ℚ
  p_value : ℚ
  alpha_spent : ℚ
  cumulative_alpha_spent : ℚ
  critical_value : WithTop ℚ
  reject_null : Bool
  control_n : ℕ
  variant_n : ℕ
  control_rate : ℚ
  variant_rate : ℚ
  lift : ℚ
deriving DecidableEq, Repr

/-- `SequentialTestPlan` dataclass from `sequential_testing.py`. -/
structure SequentialTestPlan where
  n_looks : ℕ
  alpha : ℚ
  spending_function : SpendingFunction
  information_fractions : List ℚ
  critical_values : List (WithTop ℚ)
  alpha_at_looks : List ℚ
  cumulative_alpha : List ℚ
deriving DecidableEq, Repr

/-- `SequentialTester._obrien_fleming_boundary` (lines 79-89). -/
def obrienFlemingBoundary (M : MathLib) (t alpha : ℚ) : ℚ :=
  if t ≤ 0 then 0
  else 2 * (1 - M.normCdf (M.normPpf (1 - alpha / 2) / M.sqrt t))

/-- `SequentialTester._pocock_boundary` (lines 91-100). -/
def pocockBoundary (M : MathLib) (t alpha : ℚ) : ℚ :=
  if t ≤ 0 then 0 else alpha * M.log (1 + (M.e - 1) * t)

/-- `SequentialTester._haybittle_peto_boundary` (lines 102-114). -/
def haybittlePetoBoundary (M : MathLib) (t alpha : ℚ) (nLooks : ℕ) : ℚ :=
  if t ≤ 0 then 0
  else if t < 1 then
    min (2 * (1 - M.normCdf 3) * ((nLooks : ℚ) - 1)) (alpha * t)
  else alpha

/-- `SequentialTester._get_spending_function` (lines 116-125).  The enum
match is total, so the trailing `ValueError` branch is unreachable. -/
def getSpendingFunction (M : MathLib) (sf : SpendingFunction) (alpha : ℚ)
    (nLooks : ℕ) : ℚ → ℚ :=
  match sf with
  | .obrien_fleming => fun t => obrienFlemingBoundary M t alpha
  | .pocock => fun t => pocockBoundary M t alpha
  | .haybittle_peto => fun t => haybittlePetoBoundary M t alpha nLooks

/-- The default equally spaced information fractions `(i+1)/n_looks`
(`create_plan`, lines 141-144). -/
def defaultFractions (n : ℕ) : List ℚ :=
  (List.range n).map (fun i : ℕ => ((i : ℚ) + 1) / (n : ℚ))

/-- `SequentialTester.create_plan` (lines 127-178).  A fraction list of the
wrong length raises `ValueError`; with `n_looks = 0` Python raises
`IndexError` at `cumulative_alpha[0]`.  Both are modelled as `Except.error`.
The in-range list indexing `cumulative_alpha[i]`, `i < n_looks`, is
rendered with `getD`, whose default is never consulted. -/
def createPlan (M : MathLib) (alpha : ℚ) (nLooks : ℕ) (sf : SpendingFunction)
    (informationFractions : Option (List ℚ)) : Except String SequentialTestPlan :=
  let fractions := informationFractions.getD (defaultFractions nLooks)
  if fractions.length ≠ nLooks then
    .error "information_fractions must have n_looks elements"
  else
    let spend := getSpendingFunction M sf alpha nLooks
    let cumulative := fractions.map spend
    match cumulative with
    | [] => .error "IndexError"
    | c0 :: _ =>
      let alphaAtLooks := c0 :: ((List.range (nLooks - 1)).map
        (fun i => cumulative.getD (i + 1) 0 - cumulative.getD i 0))
      let criticalValues := alphaAtLooks.map (fun a =>
        if 0 < a then ((M.normPpf (1 - a / 2) : ℚ) : WithTop ℚ) else (⊤ : WithTop ℚ))
      .ok { n_looks := nLooks
            alpha := alpha
            spending_function := sf
            information_fractions := fractions
            critical_values := criticalValues
            alpha_at_looks := alphaAtLooks
            cumulative_alpha := cumulative }

/-! ## Stats engine and guardrail result containers -/

/-- `SRMSeverity` enum from `stats_engine.py`. -/
inductive SRMSeverity where
  | ok
  | warning
  | critical
deriving DecidableEq, Repr

/-- `SRMResult` dataclass from `stats_engine.py`. -/
structure SRMResult where
  control_n : ℕ
  variant_n : ℕ
  expected_ratio : ℚ
  observed_ratio : ℚ
  chi2_statistic : ℚ
  p_value : ℚ
  srm_detected : Bool
  severity : SRMSeverity
deriving DecidableEq, Repr

/-- `ABTestResult` dataclass from `stats_engine.py`. -/
structure ABTestResult where
  control_conversion : ℚ
  variant_conversion : ℚ
  control_sample_size : ℕ
  variant_sample_size : ℕ
  absolute_lift : ℚ
  relative_lift : ℚ
  z_statistic : ℚ
  p_value : ℚ
  confidence_interval : ℚ × ℚ
  statistically_significant : Bool
  confidence_level : ℚ
  power : ℚ
  srm_result : Option SRMResult
deriving DecidableEq, Repr

/-- `ABTestResult.srm_detected` property (`stats_engine.py`, lines 73-76). -/
def ABTestResult.srm_detected (r : ABTestResult) : Bool :=
  match r.srm_result with
  | some srm => srm.srm_detected
  | Option.none => false

/-- `GuardrailStatus` enum from `guardrails.py`. -/
inductive GuardrailStatus where
  | pass
  | fail
  | warning
deriving DecidableEq, Repr

/-- `GuardrailResult` dataclass from `guardrails.py`. -/
structure GuardrailResult where
  metric_name : String
  status : GuardrailStatus
  control_value : ℚ
  variant_value : ℚ
  change_pct : ℚ
  p_value : ℚ
  threshold_pct : ℚ
  message : String
deriving DecidableEq, Repr

/-- `GuardrailReport` dataclass from `guardrails.py`. -/
structure GuardrailReport where
  results : List GuardrailResult
  all_passed : Bool
  has_warnings : Bool
deriving DecidableEq, Repr

/-- `InteractionTestResult` dataclass from `segment_analyzer.py`. -/
structure InteractionTestResult where
  segment_dimension : String
  interaction_significant : Bool
  joint_p_value : ℚ
  individual_interactions : List (String × ℚ)
  heterogeneity_warning : Bool
  model_converged : Bool
deriving DecidableEq, Repr

/-- `SegmentResult` dataclass from `segment_analyzer.py`. -/
structure SegmentResult where
  segment_name : String
  segment_value : String
  control_n : ℕ
  variant_n : ℕ
  control_rate : ℚ
  variant_rate : ℚ
  lift_absolute : ℚ
  lift_relative : ℚ
  p_value_raw : ℚ
  p_value_adjusted : ℚ
  significant_raw : Bool
  significant_adjusted : Bool
deriving DecidableEq, Repr

/-- `SegmentAnalysisReport` dataclass from `segment_analyzer.py`. -/
structure SegmentAnalysisReport where
  segment_dimension : String
  correction_method : CorrectionMethod
  alpha : ℚ
  results : List SegmentResult
  simpsons_paradox_warning : Bool
  overall_lift : ℚ
  interaction_test : Option InteractionTestResult
deriving DecidableEq, Repr

/-! ## Decision memo generator

Embedding of `DecisionMemoGenerator.get_recommendation` and
`_get_segment_warnings` (`src/memo_generator.py`, lines 116-200).  The
generator state after `analyze_data` is a record of the analysis results
consulted by the decision logic. -/

/-- The analysis-result state held by a `DecisionMemoGenerator`. -/
structure MemoState where
  freq_result : Option ABTestResult
  bayes_result : Option BayesianResult
  guardrail_report : Option GuardrailReport
  segment_reports : List (String × SegmentAnalysisReport)
  sequential_results : List InterimResult
deriving Repr

/-- `DecisionMemoGenerator._get_segment_warnings` (lines 189-200): segments
with an adjusted-significant relative lift below `-10%`, tagged with their
dimension.  The f-string label is rendered without the percentage text. -/
def MemoState.getSegmentWarnings (s : MemoState) : List String :=
  s.segment_reports.flatMap (fun dr =>
    (dr.2.results.filter
      (fun r : SegmentResult =>
        r.significant_adjusted && decide (r.lift_relative < -(10/100)))).map
      (fun r : SegmentResult => dr.1 ++ ":" ++ r.segment_value))

/-- Steps 4-5 of the decision framework of
`DecisionMemoGenerator.get_recommendation`: segment warnings, then the
standard frequentist-Bayesian combination logic (lines 157-187). -/
def MemoState.standardDecision (s : MemoState) (f : ABTestResult)
    (b : BayesianResult) : String :=
  if !(MemoState.getSegmentWarnings s).isEmpty then "ITERATE_SEGMENTS"
  else
    let freq_sig := f.statistically_significant
    let freq_positive := f.relative_lift > 0
    let freq_substantial := f.relative_lift > 5/100
    let bayes_confident := b.probability_variant_better ≥ 95/100
    let bayes_negative := b.probability_variant_better ≤ 5/100
    if freq_sig && decide freq_substantial && decide bayes_confident then "SHIP"
    else if freq_sig && !(decide freq_positive) && decide bayes_negative then
      "ROLLBACK"
    else if decide bayes_confident && decide freq_positive then "LIKELY_SHIP"
    else if freq_sig && decide freq_positive && !(decide bayes_confident) then
      "ITERATE"
    else "ITERATE"

/-- `DecisionMemoGenerator.get_recommendation` (lines 116-187). -/
def MemoState.getRecommendation (s : MemoState) : String :=
  match s.freq_result, s.bayes_result with
  | Option.none, _ => "UNKNOWN"
  | some _, Option.none => "UNKNOWN"
  | some f, some b =>
    if f.srm_detected then "HALT_SRM"
    else if (match s.guardrail_report with
             | some g => !g.results.isEmpty &&
                 !(g.results.filter
                   (fun r : GuardrailResult =>
                     r.status == GuardrailStatus.fail)).isEmpty
             | Option.none => false) then "HALT_GUARDRAIL"
    else
      match s.sequential_results.getLast? with
      | some last =>
        if last.reject_null then
          if last.lift > 0 then "EARLY_STOP_EFFICACY" else "EARLY_STOP_FUTILITY"
        else MemoState.standardDecision s f b
      | Option.none => MemoState.standardDecision s f b

/-- C1: whenever both the frequentist and Bayesian results are present and
the embedded SRM check flagged a mismatch, `get_recommendation` returns
`HALT_SRM`, regardless of every other field of the state (lifts, p-values,
Bayesian probability, guardrails, sequential results, segment reports). -/
theorem memo_halt_srm (s : MemoState) (f : ABTestResult) (b : BayesianResult)
    (hf : s.freq_result = some f) (hb : s.bayes_result = some b)
    (hsrm : f.srm_detected = true) :
    s.getRecommendation = "HALT_SRM" := by
  unfold MemoState.getRecommendation
  rw [hf, hb]
  simp [hsrm]

/-- Concrete SRM result with a detected mismatch, for the C1 witness. -/
def srmResultW : SRMResult :=
  { control_n := 600, variant_n := 400, expected_ratio := 1/2,
    observed_ratio := 3/5, chi2_statistic := 40, p_value := 1/100000000,
    srm_detected := true, severity := SRMSeverity.critical }

/-- Concrete frequentist result embedding `srmResultW`, for the C1 witness. -/
def freqResultW : ABTestResult :=
  { control_conversion := 2/25, variant_conversion := 19/200,
    control_sample_size := 600, variant_sample_size := 400,
    absolute_lift := 3/200, relative_lift := 3/16, z_statistic := 3,
    p_value := 1/500, confidence_interval := (1/200, 1/40),
    statistically_significant := true, confidence_level := 19/20,
    power := 9/10, srm_result := some srmResultW }

/-- Concrete Bayesian result with a ship-grade probability, for the C1
witness: even a `0.97` probability cannot override the SRM halt. -/
def bayesResultW : BayesianResult :=
  { control_posterior := (81, 921), variant_posterior := (96, 906),
    control_conversion := 2/25, variant_conversion := 19/200,
    control_sample_size := 1000, variant_sample_size := 1000,
    probability_variant_better := 97/100, credible_interval := (1/200, 1/40),
    expected_lift := 3/200, expected_loss_choosing_variant := 1/1000,
    expected_loss_choosing_control := 1/100 }

/-- Concrete memo state for the C1 witness. -/
def memoStateW : MemoState :=
  { freq_result := some freqResultW, bayes_result := some bayesResultW,
    guardrail_report := Option.none, segment_reports := [],
    sequential_results := [] }

/-- C1 witness: evaluation on a concrete state whose frequentist result
carries a detected SRM while every effect signal says ship. -/
theorem memo_halt_srm_witness :
    (memoStateW.freq_result = some freqResultW ∧
      memoStateW.bayes_result = some bayesResultW ∧
      freqResultW.srm_detected = true) ∧
    memoStateW.getRecommendation = "HALT_SRM" :=
  ⟨⟨rfl, rfl, rfl⟩, memo_halt_srm memoStateW freqResultW bayesResultW rfl rfl rfl⟩

/-! ## C2: cumulative alpha spending is monotone and exhausts alpha -/

theorem defaultFractions_length (n : ℕ) : (defaultFractions n).length = n := by
  rw [defaultFractions, List.length_map, List.length_range]

theorem defaultFractions_getLast (n : ℕ) (hn : 1 ≤ n) :
    (defaultFractions n).getLast? = some 1 := by
  cases n with
  | zero => omega
  | succ m =>
    unfold defaultFractions
    rw [List.range_succ, List.map_append]
    simp only [List.map_cons, List.map_nil, List.getLast?_concat]
    congr 1
    push_cast
    rw [div_self]
    positivity

/-- The cumulative-alpha list built by `create_plan` on the default
fractions is precisely the spending function mapped over them. -/
theorem createPlan_cumulative (M : MathLib) (alpha : ℚ) (nLooks : ℕ)
    (hn : 1 ≤ nLooks) (sf : SpendingFunction) (plan : SequentialTestPlan)
    (hplan : createPlan M alpha nLooks sf Option.none = .ok plan) :
    plan.cumulative_alpha =
      (defaultFractions nLooks).map (getSpendingFunction M sf alpha nLooks) := by
  unfold createPlan at hplan
  rw [Option.getD_none, if_neg (by simp [defaultFractions_length])] at hplan
  simp only at hplan
  cases hc : (defaultFractions nLooks).map (getSpendingFunction M sf alpha nLooks) with
  | nil =>
    exfalso
    have := congrArg List.length hc
    rw [List.length_map, defaultFractions_length] at this
    simp at this
    omega
  | cons c0 rest =>
    rw [hc] at hplan
    simp only at hplan
    have := Except.ok.inj hplan
    rw [← this, ← hc]

/-- Each spending function evaluates to exactly `alpha` at information
fraction `1`. -/
theorem spend_one (M : MathLib) (alpha : ℚ) (nLooks : ℕ) (sf : SpendingFunction)
    (hid : ∀ y, 0 < y → y < 1 → M.normCdf (M.normPpf y) = y)
    (hsqrt_one : M.sqrt 1 = 1) (hlog_e : M.log M.e = 1)
    (ha0 : 0 < alpha) (ha1 : alpha < 1) :
    getSpendingFunction M sf alpha nLooks 1 = alpha := by
  cases sf with
  | obrien_fleming =>
    simp only [getSpendingFunction, obrienFlemingBoundary]
    rw [if_neg (by norm_num), hsqrt_one, div_one, hid (1 - alpha / 2)
      (by linarith) (by linarith)]
    ring
  | pocock =>
    simp only [getSpendingFunction, pocockBoundary]
    rw [if_neg (by norm_num)]
    have h : 1 + (M.e - 1) * 1 = M.e := by ring
    rw [h, hlog_e, mul_one]
  | haybittle_peto =>
    simp only [getSpendingFunction, haybittlePetoBoundary]
    rw [if_neg (by norm_num), if_neg (by norm_num)]

/-- Each spending function is monotone on information fractions in `(0, 1]`. -/
theorem spend_mono (M : MathLib) (alpha : ℚ) (nLooks : ℕ) (sf : SpendingFunction)
    (hcdf_mono : Monotone M.normCdf)
    (hppf_half : M.normPpf (1/2) = 0)
    (hppf_mono : MonotoneOn M.normPpf (Set.Ioo (0:ℚ) 1))
    (hsqrt_mono : ∀ a b : ℚ, 0 < a → a ≤ b → M.sqrt a ≤ M.sqrt b)
    (hsqrt_pos : ∀ a : ℚ, 0 < a → 0 < M.sqrt a)
    (hlog_mono : Monotone M.log) (he : 1 ≤ M.e)
    (ha0 : 0 < alpha) (ha1 : alpha < 1)
    {t₁ t₂ : ℚ} (h0 : 0 < t₁) (h12 : t₁ ≤ t₂) (h21 : t₂ ≤ 1) :
    getSpendingFunction M sf alpha nLooks t₁ ≤
      getSpendingFunction M sf alpha nLooks t₂ := by
  have h02 : 0 < t₂ := lt_of_lt_of_le h0 h12
  cases sf with
  | obrien_fleming =>
    simp only [getSpendingFunction, obrienFlemingBoundary]
    rw [if_neg (not_le.mpr h0), if_neg (not_le.mpr h02)]
    have hmem1 : (1/2 : ℚ) ∈ Set.Ioo (0:ℚ) 1 := by constructor <;> norm_num
    have hmem2 : (1 - alpha/2 : ℚ) ∈ Set.Ioo (0:ℚ) 1 := by
      constructor <;> [linarith; linarith]
    have hz : 0 ≤ M.normPpf (1 - alpha / 2) := by
      rw [← hppf_half]
      exact hppf_mono hmem1 hmem2 (by linarith)
    have hs1 : 0 < M.sqrt t₁ := hsqrt_pos t₁ h0
    have hs2 : 0 < M.sqrt t₂ := hsqrt_pos t₂ h02
    have hss : M.sqrt t₁ ≤ M.sqrt t₂ := hsqrt_mono t₁ t₂ h0 h12
    have hdiv : M.normPpf (1 - alpha / 2) / M.sqrt t₂ ≤
        M.normPpf (1 - alpha / 2) / M.sqrt t₁ :=
      div_le_div_of_nonneg_left hz hs1 hss
    have := hcdf_mono hdiv
    linarith
  | pocock =>
    simp only [getSpendingFunction, pocockBoundary]
    rw [if_neg (not_le.mpr h0), if_neg (not_le.mpr h02)]
    have harg : 1 + (M.e - 1) * t₁ ≤ 1 + (M.e - 1) * t₂ := by
      have : 0 ≤ M.e - 1 := by linarith
      nlinarith
    exact mul_le_mul_of_nonneg_left (hlog_mono harg) (le_of_lt ha0)
  | haybittle_peto =>
    simp only [getSpendingFunction, haybittlePetoBoundary]
    rw [if_neg (not_le.mpr h0), if_neg (not_le.mpr h02)]
    by_cases h2lt : t₂ < 1
    · have h1lt : t₁ < 1 := lt_of_le_of_lt h12 h2lt
      rw [if_pos h1lt, if_pos h2lt]
      exact min_le_min (le_refl _) (by nlinarith)
    · have h2eq : t₂ = 1 := le_antisymm h21 (not_lt.mp h2lt)
      rw [if_neg h2lt]
      by_cases h1lt : t₁ < 1
      · rw [if_pos h1lt]
        calc min (2 * (1 - M.normCdf 3) * ((nLooks : ℚ) - 1)) (alpha * t₁)
            ≤ alpha * t₁ := min_le_right _ _
          _ ≤ alpha := by nlinarith
      · rw [if_neg h1lt]

/-- C2: for every alpha in `(0, 1)`, every number of looks at least `1`,
the default equally spaced information fractions and each of the three
spending functions, the plan built by `create_plan` has a non-decreasing
cumulative-alpha sequence whose final entry is exactly the nominal alpha.
The scipy and numpy routines are abstracted by `M`; the hypotheses are the
mathematical properties of the genuine normal CDF, quantile, square root
and logarithm that the statement depends on. -/
theorem sequential_cumulative_alpha (M : MathLib) (alpha : ℚ) (nLooks : ℕ)
    (sf : SpendingFunction)
    (hcdf_mono : Monotone M.normCdf)
    (hid : ∀ y, 0 < y → y < 1 → M.normCdf (M.normPpf y) = y)
    (hppf_half : M.normPpf (1/2) = 0)
    (hppf_mono : MonotoneOn M.normPpf (Set.Ioo (0:ℚ) 1))
    (hsqrt_mono : ∀ a b : ℚ, 0 < a → a ≤ b → M.sqrt a ≤ M.sqrt b)
    (hsqrt_pos : ∀ a : ℚ, 0 < a → 0 < M.sqrt a)
    (hsqrt_one : M.sqrt 1 = 1)
    (hlog_mono : Monotone M.log) (hlog_e : M.log M.e = 1) (he : 1 ≤ M.e)
    (ha0 : 0 < alpha) (ha1 : alpha < 1) (hn : 1 ≤ nLooks)
    (plan : SequentialTestPlan)
    (hplan : createPlan M alpha nLooks sf Option.none = .ok plan) :
    List.Sorted (· ≤ ·) plan.cumulative_alpha ∧
    plan.cumulative_alpha.getLast? = some alpha := by
  have hcum := createPlan_cumulative M alpha nLooks hn sf plan hplan
  constructor
  · rw [hcum]
    apply List.pairwise_iff_get.mpr
    intro i j hij
    have hi : (i : ℕ) < nLooks := by
      have := i.isLt
      simpa [defaultFractions_length] using this
    have hj : (j : ℕ) < nLooks := by
      have := j.isLt
      simpa [defaultFractions_length] using this
    have hgi : ((defaultFractions nLooks).map
        (getSpendingFunction M sf alpha nLooks)).get i =
        getSpendingFunction M sf alpha nLooks (((i : ℕ) + 1 : ℚ) / (nLooks : ℚ)) := by
      simp [List.get_eq_getElem, defaultFractions]
    have hgj : ((defaultFractions nLooks).map
        (getSpendingFunction M sf alpha nLooks)).get j =
        getSpendingFunction M sf alpha nLooks (((j : ℕ) + 1 : ℚ) / (nLooks : ℚ)) := by
      simp [List.get_eq_getElem, defaultFractions]
    rw [hgi, hgj]
    have hnq : (0 : ℚ) < (nLooks : ℚ) := by
      exact_mod_cast Nat.lt_of_lt_of_le Nat.zero_lt_one hn
    apply spend_mono M alpha nLooks sf hcdf_mono hppf_half hppf_mono hsqrt_mono
      hsqrt_pos hlog_mono he ha0 ha1
    · positivity
    · gcongr
      have hijn : (i : ℕ) ≤ (j : ℕ) := le_of_lt hij
      exact_mod_cast hijn
    · rw [div_le_one hnq]
      have : (j : ℕ) + 1 ≤ nLooks := hj
      exact_mod_cast this
  · rw [hcum, List.getLast?_map, defaultFractions_getLast nLooks hn,
      Option.map_some', spend_one M alpha nLooks sf hid hsqrt_one hlog_e ha0 ha1]

/-! ## A concrete rational math library for witnesses

`PhiW` is a strictly increasing algebraic sigmoid from `ℚ` onto `(0, 1)`
with exact rational inverse `ppfW` on `(0, 1)`; the steepness factor `120`
places `PhiW 3 = 721/722 ≈ 0.99861` inside the numeric window the theorems
assume for the genuine standard normal CDF at `3` (`Φ(3) ≈ 0.99865`). -/

def PhiW (x : ℚ) : ℚ := 1/2 + (120 * x) / (2 * (1 + |120 * x|))

def ppfW (y : ℚ) : ℚ := (2 * y - 1) / (120 * (1 - |2 * y - 1|))

/-- Concrete witness instantiation of the abstract math library. -/
def MathLibW : MathLib :=
  { normCdf := PhiW, normPpf := ppfW, sqrt := id, log := fun x => x - 1, e := 2 }

theorem sigmoidAux_mono {a b : ℚ} (hab : a ≤ b) :
    a / (1 + |a|) ≤ b / (1 + |b|) := by
  have ha : (0:ℚ) < 1 + |a| := by positivity
  have hb : (0:ℚ) < 1 + |b| := by positivity
  rw [div_le_div_iff₀ ha hb]
  rcases le_or_lt 0 a with h0a | h0a <;> rcases le_or_lt 0 b with h0b | h0b
  · rw [abs_of_nonneg h0a, abs_of_nonneg h0b]
    nlinarith
  · nlinarith [abs_nonneg a, abs_nonneg b]
  · rw [abs_of_neg h0a, abs_of_nonneg h0b]
    nlinarith
  · rw [abs_of_neg h0a, abs_of_neg h0b]
    nlinarith

theorem PhiW_mono : Monotone PhiW := by
  intro a b hab
  unfold PhiW
  have h := sigmoidAux_mono (a := 120 * a) (b := 120 * b) (by linarith)
  have key : ∀ x : ℚ, (120 * x) / (2 * (1 + |120 * x|)) =
      (120 * x) / (1 + |120 * x|) / 2 := by
    intro x
    rw [div_div]
    ring
  rw [key a, key b]
  linarith

theorem PhiW_ppfW (y : ℚ) (h0 : 0 < y) (h1 : y < 1) : PhiW (ppfW y) = y := by
  have hu : |2 * y - 1| < 1 := abs_lt.mpr ⟨by linarith, by linarith⟩
  have hd : (0:ℚ) < 1 - |2 * y - 1| := by linarith
  have key : 120 * ppfW y = (2 * y - 1) / (1 - |2 * y - 1|) := by
    unfold ppfW
    rw [eq_div_iff (ne_of_gt hd)]
    field_simp
    ring
  have habs : |120 * ppfW y| = |2 * y - 1| / (1 - |2 * y - 1|) := by
    rw [key, abs_div, abs_of_pos hd]
  unfold PhiW
  rw [habs, key]
  have h2 : 1 + |2 * y - 1| / (1 - |2 * y - 1|) = 1 / (1 - |2 * y - 1|) := by
    field_simp
  rw [h2]
  have hdne : (1 - |2 * y - 1|) ≠ 0 := ne_of_gt hd
  field_simp


theorem ppfW_monoOn : MonotoneOn ppfW (Set.Ioo (0:ℚ) 1) := by
  intro a ha b hb hab
  obtain ⟨ha0, ha1⟩ := ha
  obtain ⟨hb0, hb1⟩ := hb
  unfold ppfW
  have hu : |2 * a - 1| < 1 := abs_lt.mpr ⟨by linarith, by linarith⟩
  have hv : |2 * b - 1| < 1 := abs_lt.mpr ⟨by linarith, by linarith⟩
  have hdu : (0:ℚ) < 120 * (1 - |2 * a - 1|) := by nlinarith
  have hdv : (0:ℚ) < 120 * (1 - |2 * b - 1|) := by nlinarith
  rw [div_le_div_iff₀ hdu hdv]
  rcases le_or_lt 0 (2 * a - 1) with h0a | h0a <;>
    rcases le_or_lt 0 (2 * b - 1) with h0b | h0b
  · rw [abs_of_nonneg h0a, abs_of_nonneg h0b]
    nlinarith
  · nlinarith
  · rw [abs_of_neg h0a, abs_of_nonneg h0b]
    nlinarith
  · rw [abs_of_neg h0a, abs_of_neg h0b]
    nlinarith

theorem ppfW_half : ppfW (1/2) = 0 := by
  unfold ppfW
  norm_num

theorem PhiW_three : PhiW 3 = 721/722 := by
  unfold PhiW
  rw [show |(120 * (3:ℚ))| = 360 by rw [abs_of_pos] <;> norm_num]
  norm_num

/-- The plan `create_plan` builds for the C2 witness:
`MathLibW`, alpha `1/20`, two looks, Pocock spending. -/
def planPocockW : SequentialTestPlan :=
  { n_looks := 2, alpha := 1/20, spending_function := .pocock,
    information_fractions := [1/2, 1],
    critical_values := [((ppfW (79/80) : ℚ) : WithTop ℚ),
      ((ppfW (79/80) : ℚ) : WithTop ℚ)],
    alpha_at_looks := [1/40, 1/40],
    cumulative_alpha := [1/40, 1/20] }

theorem createPlan_pocock_eval :
    createPlan MathLibW (1/20) 2 .pocock Option.none = .ok planPocockW := by
  have hfr : defaultFractions 2 = [1/2, 1] := by
    unfold defaultFractions
    rw [show List.range 2 = [0, 1] from rfl]
    norm_num
  have hs1 : getSpendingFunction MathLibW .pocock (1/20) 2 (1/2) = 1/40 := by
    simp only [getSpendingFunction, pocockBoundary, MathLibW]
    rw [if_neg (by norm_num)]
    norm_num
  have hs2 : getSpendingFunction MathLibW .pocock (1/20) 2 1 = 1/20 := by
    simp only [getSpendingFunction, pocockBoundary, MathLibW]
    rw [if_neg (by norm_num)]
    norm_num
  unfold createPlan
  rw [Option.getD_none, if_neg (by simp [defaultFractions_length])]
  simp only
  rw [hfr]
  simp only [List.map_cons, List.map_nil, hs1, hs2]
  simp only [List.range_succ, List.range_zero, List.map_append, List.map_cons,
    List.nil_append, List.map_nil, List.getD_cons_succ, List.getD_cons_zero]
  unfold planPocockW
  norm_num [MathLibW]

/-- C2 witness: the Pocock plan for alpha `1/20` and two looks under the
concrete rational library has non-decreasing cumulative alpha ending at
exactly `1/20`. -/
theorem sequential_cumulative_alpha_witness :
    createPlan MathLibW (1/20) 2 .pocock Option.none = .ok planPocockW ∧
    List.Sorted (· ≤ ·) planPocockW.cumulative_alpha ∧
    planPocockW.cumulative_alpha.getLast? = some (1/20) := by
  have hmain := sequential_cumulative_alpha MathLibW (1/20) 2 .pocock
    PhiW_mono PhiW_ppfW ppfW_half ppfW_monoOn
    (fun a b _ h => h) (fun a h => h) rfl
    (by intro a b h; simp only [MathLibW]; linarith)
    (by norm_num [MathLibW]) (by norm_num [MathLibW])
    (by norm_num) (by norm_num) (by norm_num)
    planPocockW createPlan_pocock_eval
  exact ⟨createPlan_pocock_eval, hmain.1, hmain.2⟩

/-! ## C3: the Haybittle-Peto interim boundaries are not the documented z=3

The docstring of `_haybittle_peto_boundary` says the method uses a fixed
`z = 3` boundary for every interim look, but the implemented spending
function `min(interim_alpha * (n_looks - 1), alpha * t)` produces a
different incremental alpha at every interim look: at the default
`alpha = 0.05`, `n_looks = 5` the first look spends `alpha * t_1 = 0.01`
(critical value `ppf(0.995) ≈ 2.576`, not `3`) and looks 3 and 4 spend
nothing (infinite boundaries). -/

/-- C3: exact evaluation of the Haybittle-Peto plan at `alpha = 1/20`,
`n_looks = 5`, default fractions.  The hypotheses are true numeric facts
about the standard normal CDF (`Φ(3) ≈ 0.9986501`).  The plan has look-1
incremental alpha `1/100` — not the two-sided z=3 tail `2(1 - Φ(3))` — a
look-1 critical value `ppf(199/200) ≠ 3`, and infinite (`⊤`) boundaries at
looks 3 and 4, contradicting the documented fixed `z = 3` interim
boundary. -/
theorem haybittle_peto_interim_boundary (M : MathLib)
    (hid : ∀ y, 0 < y → y < 1 → M.normCdf (M.normPpf y) = y)
    (h1 : 1597/1600 < M.normCdf 3) (h2 : M.normCdf 3 < 799/800) :
    createPlan M (1/20) 5 .haybittle_peto Option.none = .ok
      { n_looks := 5, alpha := 1/20, spending_function := .haybittle_peto,
        information_fractions := [1/5, 2/5, 3/5, 4/5, 1],
        critical_values := [((M.normPpf (199/200) : ℚ) : WithTop ℚ),
          ((M.normPpf (1 - (8 * (1 - M.normCdf 3) - 1/100) / 2) : ℚ) : WithTop ℚ),
          (⊤ : WithTop ℚ), (⊤ : WithTop ℚ),
          ((M.normPpf (1 - (1/20 - 8 * (1 - M.normCdf 3)) / 2) : ℚ) : WithTop ℚ)],
        alpha_at_looks := [1/100, 8 * (1 - M.normCdf 3) - 1/100, 0, 0,
          1/20 - 8 * (1 - M.normCdf 3)],
        cumulative_alpha := [1/100, 8 * (1 - M.normCdf 3),
          8 * (1 - M.normCdf 3), 8 * (1 - M.normCdf 3), 1/20] } ∧
    M.normPpf (199/200) ≠ 3 ∧
    (1/100 : ℚ) ≠ 2 * (1 - M.normCdf 3) := by
  have hfr : defaultFractions 5 = [1/5, 2/5, 3/5, 4/5, 1] := by
    unfold defaultFractions
    rw [show List.range 5 = [0, 1, 2, 3, 4] from rfl]
    norm_num
  have hb1 : getSpendingFunction M .haybittle_peto (1/20) 5 (1/5) = 1/100 := by
    simp only [getSpendingFunction, haybittlePetoBoundary]
    rw [if_neg (by norm_num), if_pos (by norm_num),
      min_eq_right (by push_cast; nlinarith)]
    norm_num
  have hb2 : getSpendingFunction M .haybittle_peto (1/20) 5 (2/5) =
      8 * (1 - M.normCdf 3) := by
    simp only [getSpendingFunction, haybittlePetoBoundary]
    rw [if_neg (by norm_num), if_pos (by norm_num),
      min_eq_left (by push_cast; nlinarith)]
    push_cast
    ring
  have hb3 : getSpendingFunction M .haybittle_peto (1/20) 5 (3/5) =
      8 * (1 - M.normCdf 3) := by
    simp only [getSpendingFunction, haybittlePetoBoundary]
    rw [if_neg (by norm_num), if_pos (by norm_num),
      min_eq_left (by push_cast; nlinarith)]
    push_cast
    ring
  have hb4 : getSpendingFunction M .haybittle_peto (1/20) 5 (4/5) =
      8 * (1 - M.normCdf 3) := by
    simp only [getSpendingFunction, haybittlePetoBoundary]
    rw [if_neg (by norm_num), if_pos (by norm_num),
      min_eq_left (by push_cast; nlinarith)]
    push_cast
    ring
  have hb5 : getSpendingFunction M .haybittle_peto (1/20) 5 1 = 1/20 := by
    simp only [getSpendingFunction, haybittlePetoBoundary]
    rw [if_neg (by norm_num), if_neg (by norm_num)]
  have hc : (defaultFractions 5).map (getSpendingFunction M .haybittle_peto (1/20) 5)
      = [1/100, 8 * (1 - M.normCdf 3), 8 * (1 - M.normCdf 3),
        8 * (1 - M.normCdf 3), 1/20] := by
    rw [hfr]
    simp only [List.map_cons, List.map_nil, hb1, hb2, hb3, hb4, hb5]
  refine ⟨?_, ?_, ?_⟩
  · unfold createPlan
    rw [Option.getD_none, if_neg (by simp [defaultFractions_length])]
    simp only
    rw [hc, hfr]
    simp only [show List.range (5 - 1) = [0, 1, 2, 3] from rfl,
      List.map_cons, List.map_nil, List.getD_cons_succ, List.getD_cons_zero]
    rw [sub_self (8 * (1 - M.normCdf 3))]
    rw [if_pos (show (0:ℚ) < 1/100 by norm_num),
      if_pos (show (0:ℚ) < 8 * (1 - M.normCdf 3) - 1/100 by nlinarith),
      if_neg (show ¬ (0:ℚ) < 0 by norm_num),
      if_pos (show (0:ℚ) < 1/20 - 8 * (1 - M.normCdf 3) by nlinarith)]
    norm_num
  · intro heq
    have := hid (199/200) (by norm_num) (by norm_num)
    rw [heq] at this
    linarith
  · have : 2 * (1 - M.normCdf 3) < 1/100 := by nlinarith
    exact this.ne'

/-- C3 witness: the Haybittle-Peto plan evaluated under the concrete
rational library, whose value at `3` lies in the assumed window. -/
theorem haybittle_peto_interim_boundary_witness :
    createPlan MathLibW (1/20) 5 .haybittle_peto Option.none = .ok
      { n_looks := 5, alpha := 1/20, spending_function := .haybittle_peto,
        information_fractions := [1/5, 2/5, 3/5, 4/5, 1],
        critical_values := [((MathLibW.normPpf (199/200) : ℚ) : WithTop ℚ),
          ((MathLibW.normPpf (1 - (8 * (1 - MathLibW.normCdf 3) - 1/100) / 2) : ℚ) :
            WithTop ℚ),
          (⊤ : WithTop ℚ), (⊤ : WithTop ℚ),
          ((MathLibW.normPpf (1 - (1/20 - 8 * (1 - MathLibW.normCdf 3)) / 2) : ℚ) :
            WithTop ℚ)],
        alpha_at_looks := [1/100, 8 * (1 - MathLibW.normCdf 3) - 1/100, 0, 0,
          1/20 - 8 * (1 - MathLibW.normCdf 3)],
        cumulative_alpha := [1/100, 8 * (1 - MathLibW.normCdf 3),
          8 * (1 - MathLibW.normCdf 3), 8 * (1 - MathLibW.normCdf 3), 1/20] } ∧
    MathLibW.normPpf (199/200) ≠ 3 ∧
    (1/100 : ℚ) ≠ 2 * (1 - MathLibW.normCdf 3) :=
  haybittle_peto_interim_boundary MathLibW PhiW_ppfW
    (by rw [show MathLibW.normCdf 3 = PhiW 3 from rfl, PhiW_three]; norm_num)
    (by rw [show MathLibW.normCdf 3 = PhiW 3 from rfl, PhiW_three]; norm_num)

/-! ## Sequential analysis over time-ordered data (C9)

Embedding of `SequentialTester.analyze_interim` and `analyze_sequential`
(`src/sequential_testing.py`, lines 180-296).  Python list indexing is
modelled by `pyIndex` (raising `IndexError` out of range); `df.head(n)` on
the timestamp-sorted frame is `List.take` after a stable sort; `int(...)`
truncation of the non-negative products arising here is `Int.toNat ∘ floor`
(for pathological plans with negative fractions pandas `head` would drop
trailing rows instead — no claim depends on the rows selected).  Pandas
means of empty groups are NaN; as no claim depends on those values they are
rendered with the division-by-zero-equals-zero convention. -/

/-- One row of the experiment frame as consumed by the sequential engine. -/
structure SeqRow where
  timestamp : ℚ
  group : String
  converted : ℚ
deriving DecidableEq, Repr

/-- Python list indexing: `l[i]` raises `IndexError` out of range. -/
def pyIndex {α : Type} (l : List α) (i : ℕ) : Except String α :=
  match l.get? i with
  | some a => .ok a
  | Option.none => .error "IndexError"

/-- `SequentialTester.analyze_interim` (lines 180-248). -/
def analyzeInterim (M : MathLib) (plan : SequentialTestPlan) (nLooks : ℕ)
    (df : List SeqRow) (lookNumber : ℕ) (controlLabel variantLabel : String) :
    Except String InterimResult :=
  if lookNumber < 1 ∨ lookNumber > nLooks then
    .error "look_number out of range"
  else
    let lookIdx := lookNumber - 1
    let control := (df.filter (fun r => r.group == controlLabel)).map
      (fun r => r.converted)
    let variant := (df.filter (fun r => r.group == variantLabel)).map
      (fun r => r.converted)
    let controlN := control.length
    let variantN := variant.length
    let controlRate := control.sum / (controlN : ℚ)
    let variantRate := variant.sum / (variantN : ℚ)
    let pooledRate := (control.sum + variant.sum) / ((controlN : ℚ) + (variantN : ℚ))
    let se := M.sqrt (pooledRate * (1 - pooledRate) *
      (1 / (controlN : ℚ) + 1 / (variantN : ℚ)))
    let zStat := if se > 0 then (variantRate - controlRate) / se else 0
    let pValue := 2 * (1 - M.normCdf |zStat|)
    match pyIndex plan.critical_values lookIdx with
    | .error e => .error e
    | .ok criticalValue =>
      let rejectNull := decide (criticalValue ≤ ((|zStat| : ℚ) : WithTop ℚ))
      match pyIndex plan.information_fractions lookIdx with
      | .error e => .error e
      | .ok infoFrac =>
        match pyIndex plan.alpha_at_looks lookIdx with
        | .error e => .error e
        | .ok alphaSpent =>
          match pyIndex plan.cumulative_alpha lookIdx with
          | .error e => .error e
          | .ok cumAlpha =>
            .ok { look_number := lookNumber
                  information_fraction := infoFrac
                  z_statistic := zStat
                  p_value := pValue
                  alpha_spent := alphaSpent
                  cumulative_alpha_spent := cumAlpha
                  critical_value := criticalValue
                  reject_null := rejectNull
                  control_n := controlN
                  variant_n := variantN
                  control_rate := controlRate
                  variant_rate := variantRate
                  lift := if controlRate > 0 then
                    (variantRate - controlRate) / controlRate else 0 }

/-- The loop body of `analyze_sequential` (lines 276-294): look `i + 1` is
evaluated on the first `int(n_total * info_frac)` rows of the sorted frame
and the loop breaks on the first rejection. -/
def seqLoop (M : MathLib) (plan : SequentialTestPlan) (nLooks : ℕ)
    (dfSorted : List SeqRow) (nTotal : ℕ) (controlLabel variantLabel : String) :
    ℕ → ℕ → Except String (List InterimResult)
  | 0, _ => .ok []
  | fuel + 1, i =>
    match pyIndex plan.information_fractions i with
    | .error e => .error e
    | .ok infoFrac =>
      let nAtLook := (⌊(nTotal : ℚ) * infoFrac⌋).toNat
      match analyzeInterim M plan nLooks (dfSorted.take nAtLook) (i + 1)
          controlLabel variantLabel with
      | .error e => .error e
      | .ok r =>
        if r.reject_null then .ok [r]
        else
          match seqLoop M plan nLooks dfSorted nTotal controlLabel variantLabel
              fuel (i + 1) with
          | .error e => .error e
          | .ok rest => .ok (r :: rest)

/-- `SequentialTester.analyze_sequential` (lines 250-296): sort by
timestamp (stably, like `DataFrame.sort_values`), then run the looks in
increasing information-fraction order with early stopping. -/
def analyzeSequential (M : MathLib) (plan : SequentialTestPlan) (nLooks : ℕ)
    (df : List SeqRow) (controlLabel variantLabel : String) :
    Except String (List InterimResult) :=
  let dfSorted := List.insertionSort
    (fun a b : SeqRow => a.timestamp ≤ b.timestamp) df
  seqLoop M plan nLooks dfSorted df.length controlLabel variantLabel nLooks 0

theorem analyzeInterim_look_number (M : MathLib) (plan : SequentialTestPlan)
    (nLooks : ℕ) (df : List SeqRow) (lookNumber : ℕ) (cl vl : String)
    (r : InterimResult)
    (h : analyzeInterim M plan nLooks df lookNumber cl vl = .ok r) :
    r.look_number = lookNumber := by
  unfold analyzeInterim at h
  split at h
  · exact absurd h (by simp)
  · simp only at h
    cases h1 : pyIndex plan.critical_values (lookNumber - 1) with
    | error e => rw [h1] at h; exact absurd h (by simp)
    | ok c =>
      rw [h1] at h
      cases h2 : pyIndex plan.information_fractions (lookNumber - 1) with
      | error e => rw [h2] at h; exact absurd h (by simp)
      | ok infoFrac =>
        rw [h2] at h
        cases h3 : pyIndex plan.alpha_at_looks (lookNumber - 1) with
        | error e => rw [h3] at h; exact absurd h (by simp)
        | ok alphaSpent =>
          rw [h3] at h
          cases h4 : pyIndex plan.cumulative_alpha (lookNumber - 1) with
          | error e => rw [h4] at h; exact absurd h (by simp)
          | ok cumAlpha =>
            rw [h4] at h
            simp only at h
            have := Except.ok.inj h
            rw [← this]

theorem seqLoop_spec (M : MathLib) (plan : SequentialTestPlan) (nLooks : ℕ)
    (dfSorted : List SeqRow) (nTotal : ℕ) (cl vl : String) :
    ∀ (fuel i : ℕ) (rs : List InterimResult),
      seqLoop M plan nLooks dfSorted nTotal cl vl fuel i = .ok rs →
      rs.map InterimResult.look_number =
        (List.range rs.length).map (fun k => k + i + 1) ∧
      ∀ (k : ℕ) (hk : k < rs.length),
        (rs.get ⟨k, hk⟩).reject_null = true → k = rs.length - 1
  | 0, i, rs, h => by
    have : rs = [] := (Except.ok.inj h).symm
    subst this
    exact ⟨by simp, fun k hk => absurd hk (by simp)⟩
  | fuel + 1, i, rs, h => by
    rw [seqLoop] at h
    cases hpi : pyIndex plan.information_fractions i with
    | error e => rw [hpi] at h; exact absurd h (by simp)
    | ok infoFrac =>
      rw [hpi] at h
      simp only at h
      cases hai : analyzeInterim M plan nLooks
          (List.take (⌊(nTotal : ℚ) * infoFrac⌋.toNat) dfSorted) (i + 1) cl vl with
      | error e => rw [hai] at h; exact absurd h (by simp)
      | ok r =>
        rw [hai] at h
        simp only at h
        have hlook := analyzeInterim_look_number M plan nLooks _ (i + 1) cl vl r hai
        by_cases hrej : r.reject_null = true
        · rw [if_pos hrej] at h
          have : rs = [r] := (Except.ok.inj h).symm
          subst this
          refine ⟨by
            rw [show ([r] : List InterimResult).length = 1 from rfl,
              show List.range 1 = [0] from rfl]
            simp [hlook], ?_⟩
          intro k hk _
          simp only [List.length_cons, List.length_nil] at hk ⊢
          omega
        · rw [if_neg hrej] at h
          cases hsl : seqLoop M plan nLooks dfSorted nTotal cl vl fuel (i + 1) with
          | error e => rw [hsl] at h; exact absurd h (by simp)
          | ok rest =>
            rw [hsl] at h
            simp only at h
            have hrs : rs = r :: rest := (Except.ok.inj h).symm
            subst hrs
            obtain ⟨ih1, ih2⟩ :=
              seqLoop_spec M plan nLooks dfSorted nTotal cl vl fuel (i + 1)
                rest hsl
            constructor
            · simp only [List.map_cons, List.length_cons, hlook]
              rw [List.range_succ_eq_map, List.map_cons, List.map_map, ih1]
              congr 1
              · omega
              · apply List.map_congr_left
                intro k _
                simp [Function.comp]
                omega
            · intro k hk hrej'
              cases k with
              | zero =>
                exfalso
                simp only [List.get] at hrej'
                exact hrej hrej'
              | succ j =>
                have hj : j < rest.length := by
                  simpa using hk
                have := ih2 j hj (by simpa using hrej')
                simp only [List.length_cons]
                omega

/-- C9: for every plan and every time-ordered dataset, the interim results
returned by `analyze_sequential` are the consecutive looks `1, 2, ...` in
increasing order and only the last returned look can reject the null: once
look `i` rejects, no later look is ever evaluated, so no entry has a look
number past the first rejecting look. -/
theorem analyze_sequential_early_stop (M : MathLib) (plan : SequentialTestPlan)
    (nLooks : ℕ) (df : List SeqRow) (cl vl : String)
    (rs : List InterimResult)
    (h : analyzeSequential M plan nLooks df cl vl = .ok rs) :
    rs.map InterimResult.look_number =
      (List.range rs.length).map (fun k => k + 1) ∧
    ∀ (k : ℕ) (hk : k < rs.length),
      (rs.get ⟨k, hk⟩).reject_null = true → k = rs.length - 1 := by
  obtain ⟨h1, h2⟩ := seqLoop_spec M plan nLooks
    (List.insertionSort (fun a b : SeqRow => a.timestamp ≤ b.timestamp) df)
    df.length cl vl nLooks 0 rs h
  exact ⟨by simpa using h1, h2⟩

theorem ppfW_7980 : ppfW (79/80) = 13/40 := by
  unfold ppfW
  rw [show |2 * (79/80 : ℚ) - 1| = 39/40 by rw [abs_of_pos] <;> norm_num]
  norm_num

theorem PhiW_zero : PhiW 0 = 1/2 := by
  unfold PhiW
  norm_num

/-- Interim result of look 1 on the empty frame under `planPocockW`. -/
def interimW1 : InterimResult :=
  { look_number := 1, information_fraction := 1/2, z_statistic := 0,
    p_value := 1, alpha_spent := 1/40, cumulative_alpha_spent := 1/40,
    critical_value := ((13/40 : ℚ) : WithTop ℚ), reject_null := false,
    control_n := 0, variant_n := 0, control_rate := 0, variant_rate := 0,
    lift := 0 }

/-- Interim result of look 2 on the empty frame under `planPocockW`. -/
def interimW2 : InterimResult :=
  { look_number := 2, information_fraction := 1, z_statistic := 0,
    p_value := 1, alpha_spent := 1/40, cumulative_alpha_spent := 1/20,
    critical_value := ((13/40 : ℚ) : WithTop ℚ), reject_null := false,
    control_n := 0, variant_n := 0, control_rate := 0, variant_rate := 0,
    lift := 0 }

theorem analyzeSequential_eval :
    analyzeSequential MathLibW planPocockW 2 [] "A_control" "B_variant" =
      .ok [interimW1, interimW2] := by
  unfold analyzeSequential
  rw [show List.insertionSort (fun a b : SeqRow => a.timestamp ≤ b.timestamp) []
    = [] from rfl]
  rw [seqLoop, show pyIndex planPocockW.information_fractions 0 =
    .ok (1/2 : ℚ) from rfl]
  simp only
  rw [show analyzeInterim MathLibW planPocockW 2
      (List.take (⌊((List.length ([] : List SeqRow)) : ℚ) * (1/2)⌋.toNat) [])
      1 "A_control" "B_variant" = .ok interimW1 by
    unfold analyzeInterim
    rw [if_neg (by norm_num)]
    simp only [List.take_nil, List.filter_nil, List.map_nil, List.length_nil,
      List.sum_nil, pyIndex, planPocockW]
    simp only [List.get?]
    norm_num [MathLibW, PhiW_zero, ppfW_7980, interimW1]]
  simp only
  rw [show interimW1.reject_null = false from rfl]
  simp only [Bool.false_eq_true, if_false]
  rw [seqLoop, show pyIndex planPocockW.information_fractions 1 =
    .ok (1 : ℚ) from rfl]
  simp only
  rw [show analyzeInterim MathLibW planPocockW 2
      (List.take (⌊((List.length ([] : List SeqRow)) : ℚ) * 1⌋.toNat) [])
      2 "A_control" "B_variant" = .ok interimW2 by
    unfold analyzeInterim
    rw [if_neg (by norm_num)]
    simp only [List.take_nil, List.filter_nil, List.map_nil, List.length_nil,
      List.sum_nil, pyIndex, planPocockW]
    simp only [List.get?]
    norm_num [MathLibW, PhiW_zero, ppfW_7980, interimW2]]
  simp only
  rw [show interimW2.reject_null = false from rfl]
  simp only [Bool.false_eq_true, if_false]
  rw [seqLoop]

/-- C9 witness: evaluation on the empty frame with the concrete Pocock
plan; both looks run, in order, and neither rejects. -/
theorem analyze_sequential_early_stop_witness :
    analyzeSequential MathLibW planPocockW 2 [] "A_control" "B_variant" =
      .ok [interimW1, interimW2] ∧
    [interimW1, interimW2].map InterimResult.look_number =
      (List.range ([interimW1, interimW2] : List InterimResult).length).map
        (fun k => k + 1) :=
  ⟨analyzeSequential_eval,
    (analyze_sequential_early_stop MathLibW planPocockW 2 [] "A_control"
      "B_variant" [interimW1, interimW2] analyzeSequential_eval).1⟩

/-! ## Frequentist engine (C5)

Embedding of `ABTestAnalyzer.check_srm` and `ABTestAnalyzer.analyze`
(`src/stats_engine.py`, lines 129-268).  The statsmodels calls
(`proportions_ztest`, `confint_proportions_2indep`,
`NormalIndPower.solve_power`), scipy `chi2` survival function and numpy
`arcsin`/`sqrt` are external library routines, abstracted as the total
functions of a `StatsDeps` record — a model that is conservative in the
claims favor, since the real statsmodels calls can themselves raise on
zero-size groups.  `int(...)` on a Python number truncates toward zero
(`ratTrunc`).  Pandas means of empty series are NaN, not exceptions;
rationals with the division-by-zero-equals-zero convention stand in and
no claim reads those values. -/

/-- One row of the experiment frame as consumed by the frequentist and
Bayesian engines. -/
structure StatsRow where
  group : String
  converted : ℚ
deriving DecidableEq, Repr

/-- Python `int(...)` truncation toward zero on a rational. -/
def ratTrunc (q : ℚ) : ℤ := q.num / (q.den : ℤ)

/-- Abstract interface for the external statistics library routines used by
`ABTestAnalyzer.analyze`. -/
structure StatsDeps where
  proportionsZtest : (ℚ × ℚ) → (ℕ × ℕ) → ℚ × ℚ
  confint2indep : ℤ → ℕ → ℤ → ℕ → ℚ → ℚ × ℚ
  solvePower : ℚ → ℕ → ℚ → ℚ → ℚ
  chi2Sf : ℚ → ℚ
  arcsin : ℚ → ℚ
  sqrt : ℚ → ℚ

/-- `ABTestAnalyzer.check_srm` (lines 217-268).  `scipy.stats.chisquare`
computes `sum((obs - exp)^2 / exp)`; a zero expected count produces a numpy
warning and a non-finite float, not an exception — the
division-by-zero-equals-zero convention stands in and no claim reads the
value there. -/
def checkSrm (D : StatsDeps) (controlN variantN : ℕ) (expectedRatio : ℚ)
    (threshold : ℚ) : SRMResult :=
  let total := controlN + variantN
  let expectedControl := (total : ℚ) * expectedRatio
  let expectedVariant := (total : ℚ) * (1 - expectedRatio)
  let chi2 := ((controlN : ℚ) - expectedControl)^2 / expectedControl +
    ((variantN : ℚ) - expectedVariant)^2 / expectedVariant
  let pValue := D.chi2Sf chi2
  let observedRatio := if total > 0 then (controlN : ℚ) / (total : ℚ) else 0
  let severity := if pValue < 1/10000 then SRMSeverity.critical
    else if pValue < threshold then SRMSeverity.warning
    else SRMSeverity.ok
  { control_n := controlN, variant_n := variantN,
    expected_ratio := expectedRatio, observed_ratio := observedRatio,
    chi2_statistic := chi2, p_value := pValue,
    srm_detected := decide (pValue < threshold), severity := severity }

/-- `ABTestAnalyzer.analyze` (lines 129-215).  The achieved-power step
computes `ratio = len(variant) / len(control)`: with an empty control group
this is a Python integer division by zero, which raises
`ZeroDivisionError` before any result object is built. -/
def analyzeFreq (D : StatsDeps) (alpha : ℚ) (df : List StatsRow)
    (controlLabel variantLabel : String) : Except String ABTestResult :=
  let control := (df.filter (fun r => r.group == controlLabel)).map
    (fun r => r.converted)
  let variant := (df.filter (fun r => r.group == variantLabel)).map
    (fun r => r.converted)
  let srmResult := checkSrm D control.length variant.length (1/2) (1/1000)
  let controlRate := control.sum / (control.length : ℚ)
  let variantRate := variant.sum / (variant.length : ℚ)
  let absoluteLift := variantRate - controlRate
  let relativeLift := if controlRate > 0 then absoluteLift / controlRate else 0
  let zp := D.proportionsZtest (variant.sum, control.sum)
    (variant.length, control.length)
  let ci := D.confint2indep (ratTrunc variant.sum) variant.length
    (ratTrunc control.sum) control.length alpha
  let effectSize := 2 * (D.arcsin (D.sqrt variantRate) -
    D.arcsin (D.sqrt controlRate))
  if control.length = 0 then
    .error "ZeroDivisionError"
  else
    let ratio := (variant.length : ℚ) / (control.length : ℚ)
    let achievedPower := D.solvePower |effectSize| control.length alpha ratio
    .ok { control_conversion := controlRate
          variant_conversion := variantRate
          control_sample_size := control.length
          variant_sample_size := variant.length
          absolute_lift := absoluteLift
          relative_lift := relativeLift
          z_statistic := zp.1
          p_value := zp.2
          confidence_interval := ci
          statistically_significant := decide (zp.2 < alpha)
          confidence_level := 1 - alpha
          power := achievedPower
          srm_result := some srmResult }

/-- Trivial instantiation of the external statistics routines, for closed
evaluations. -/
def statsDeps0 : StatsDeps :=
  { proportionsZtest := fun _ _ => (0, 0), confint2indep := fun _ _ _ _ _ => (0, 0),
    solvePower := fun _ _ _ _ => 0, chi2Sf := fun _ => 0,
    arcsin := fun _ => 0, sqrt := fun _ => 0 }

/-- C5 counterexample: on the dataset holding a single variant row and no
control rows, `analyze` does not return a (degenerate) `ABTestResult` at
all — it raises (modelled: `ZeroDivisionError` from
`ratio = len(variant) / len(control)`), refuting the claim that a dataset
with an empty group yields a flagged result with rate `0` and no
exception. -/
theorem analyze_empty_control_counterexample :
    analyzeFreq statsDeps0 (1/20) [{ group := "B_variant", converted := 1 }]
      "A_control" "B_variant" = .error "ZeroDivisionError" := by
  unfold analyzeFreq
  rw [if_pos]
  rw [show ([{ group := "B_variant", converted := 1 }] :
      List StatsRow).filter (fun r => r.group == "A_control") = [] by
    simp [List.filter]]
  rfl

/-- C5 amended: for every dataset whose control group is empty (under any
behavior of the external library routines, modelled as total), `analyze`
raises rather than returning a degenerate result: the repository's own
expression `ratio = len(variant) / len(control)` divides by the zero
control count.  The conversion rate of an empty group is NaN in the code
(pandas mean of an empty series), not `0`. -/
theorem analyze_empty_control_raises (D : StatsDeps) (alpha : ℚ)
    (df : List StatsRow) (cl vl : String)
    (hctl : df.filter (fun r => r.group == cl) = []) :
    analyzeFreq D alpha df cl vl = .error "ZeroDivisionError" := by
  unfold analyzeFreq
  rw [hctl]
  rfl

/-- C5 witness for the amended claim: the single-variant-row dataset. -/
theorem analyze_empty_control_raises_witness :
    ([{ group := "B_variant", converted := 1 }] :
        List StatsRow).filter (fun r => r.group == "A_control") = [] ∧
    analyzeFreq statsDeps0 (1/20) [{ group := "B_variant", converted := 1 }]
      "A_control" "B_variant" = .error "ZeroDivisionError" :=
  ⟨by simp [List.filter],
    analyze_empty_control_raises statsDeps0 (1/20) _ "A_control" "B_variant"
      (by simp [List.filter])⟩

/-! ## CUPED engine (C6)

Embedding of `CUPEDAnalyzer.analyze` (`src/cuped.py`, lines 69-197).
`covariate_col not in df.columns` is a frame-level fact, modelled by the
`has_covariate` flag.  `np.var` (population variance) of an empty array is
NaN with a numpy warning, never an exception — modelled as `Option ℚ` with
`none` for the empty input, so the Python test `var_x == 0` is exactly
`npVar x = some 0`.  All later arithmetic (`np.cov` with `n - 1 = 0`,
pooled variances with `n_c + n_v - 2 = 0`, means of empty arrays) likewise
produces non-finite floats rather than exceptions; the
division-by-zero-equals-zero convention stands in and no claim reads those
values.  The embedding is a total function into `Option CUPEDResult`,
reflecting that no operation on these paths raises. -/

/-- One row of the frame consumed by the CUPED engine. -/
structure CupedRow where
  group : String
  converted : ℚ
  pre_experiment_converted : ℚ
deriving DecidableEq, Repr

/-- The experiment frame seen by CUPED: rows plus whether the covariate
column is present among `df.columns`. -/
structure CupedFrame where
  rows : List CupedRow
  has_covariate : Bool
deriving Repr

/-- `CUPEDResult` dataclass from `cuped.py`. -/
structure CUPEDResult where
  original_lift : ℚ
  original_se : ℚ
  original_ci : ℚ × ℚ
  adjusted_lift : ℚ
  adjusted_se : ℚ
  adjusted_ci : ℚ × ℚ
  variance_reduction_pct : ℚ
  theta : ℚ
  covariate_correlation : ℚ
  original_p_value : ℚ
  adjusted_p_value : ℚ
  original_significant : Bool
  adjusted_significant : Bool
deriving DecidableEq, Repr

/-- Arithmetic mean (`np.mean`; division-by-zero convention for empty). -/
def npMean (xs : List ℚ) : ℚ := xs.sum / (xs.length : ℚ)

/-- `np.var` with `ddof = 0`; `none` models the NaN numpy returns on an
empty array. -/
def npVar (xs : List ℚ) : Option ℚ :=
  if xs.isEmpty then Option.none
  else some ((xs.map (fun x => (x - npMean xs)^2)).sum / (xs.length : ℚ))

/-- `np.cov(y, x)[0, 1]`: sample covariance with `ddof = 1` (the `n = 1`
division by zero yields a non-finite float in numpy; convention stands
in). -/
def npCov (ys xs : List ℚ) : ℚ :=
  (List.zipWith (fun a b => (a - npMean ys) * (b - npMean xs)) ys xs).sum /
    ((ys.length : ℚ) - 1)

/-- `CUPEDAnalyzer.analyze` (lines 69-197). -/
def cupedAnalyze (M : MathLib) (alpha : ℚ) (df : CupedFrame)
    (controlLabel variantLabel : String) : Option CUPEDResult :=
  if df.has_covariate = false then Option.none
  else
    let controlRows := df.rows.filter (fun r => r.group == controlLabel)
    let variantRows := df.rows.filter (fun r => r.group == variantLabel)
    let yControl := controlRows.map (fun r => r.converted)
    let yVariant := variantRows.map (fun r => r.converted)
    let xControl := controlRows.map (fun r => r.pre_experiment_converted)
    let xVariant := variantRows.map (fun r => r.pre_experiment_converted)
    let y := yControl ++ yVariant
    let x := xControl ++ xVariant
    let covYX := npCov y x
    let varX := npVar x
    if varX = some 0 then Option.none
    else
      let theta := covYX / (varX.getD 0)
      let correlation := covYX /
        (M.sqrt ((npVar y).getD 0 * (y.length : ℚ) / ((y.length : ℚ) - 1)) *
          M.sqrt ((npVar x).getD 0 * (x.length : ℚ) / ((x.length : ℚ) - 1)))
      let originalLift := npMean yVariant - npMean yControl
      let nControl := yControl.length
      let nVariant := yVariant.length
      let pooledVar := (((nControl : ℚ) - 1) * (npVar yControl).getD 0 +
        ((nVariant : ℚ) - 1) * (npVar yVariant).getD 0) /
        ((nControl : ℚ) + (nVariant : ℚ) - 2)
      let originalSe := M.sqrt (pooledVar *
        (1 / (nControl : ℚ) + 1 / (nVariant : ℚ)))
      let xMean := npMean x
      let yControlAdj := List.zipWith
        (fun yv xv => yv - theta * (xv - xMean)) yControl xControl
      let yVariantAdj := List.zipWith
        (fun yv xv => yv - theta * (xv - xMean)) yVariant xVariant
      let adjustedLift := npMean yVariantAdj - npMean yControlAdj
      let adjustedPooledVar := (((nControl : ℚ) - 1) * (npVar yControlAdj).getD 0 +
        ((nVariant : ℚ) - 1) * (npVar yVariantAdj).getD 0) /
        ((nControl : ℚ) + (nVariant : ℚ) - 2)
      let adjustedSe := M.sqrt (adjustedPooledVar *
        (1 / (nControl : ℚ) + 1 / (nVariant : ℚ)))
      let varianceReduction := if originalSe > 0 then
        1 - (adjustedSe^2) / (originalSe^2) else 0
      let zCrit := M.normPpf (1 - alpha / 2)
      let originalCi := (originalLift - zCrit * originalSe,
        originalLift + zCrit * originalSe)
      let adjustedCi := (adjustedLift - zCrit * adjustedSe,
        adjustedLift + zCrit * adjustedSe)
      let originalP := if originalSe > 0 then
        2 * (1 - M.normCdf |originalLift / originalSe|) else 1
      let adjustedP := if adjustedSe > 0 then
        2 * (1 - M.normCdf |adjustedLift / adjustedSe|) else 1
      some { original_lift := originalLift, original_se := originalSe,
             original_ci := originalCi, adjusted_lift := adjustedLift,
             adjusted_se := adjustedSe, adjusted_ci := adjustedCi,
             variance_reduction_pct := varianceReduction, theta := theta,
             covariate_correlation := correlation,
             original_p_value := originalP, adjusted_p_value := adjustedP,
             original_significant := decide (originalP < alpha),
             adjusted_significant := decide (adjustedP < alpha) }

/-- C6: with the covariate column absent, or with zero pooled covariate
variance (the Python test `var_x == 0`), CUPED `analyze` returns the
unavailable value `None`; the embedding is a total function, reflecting
that no repository operation on these paths raises to the caller. -/
theorem cuped_unavailable (M : MathLib) (alpha : ℚ) (df : CupedFrame)
    (cl vl : String)
    (h : df.has_covariate = false ∨
      npVar ((df.rows.filter (fun r => r.group == cl)).map
          (fun r => r.pre_experiment_converted) ++
        (df.rows.filter (fun r => r.group == vl)).map
          (fun r => r.pre_experiment_converted)) = some 0) :
    cupedAnalyze M alpha df cl vl = Option.none := by
  unfold cupedAnalyze
  rcases h with h | h
  · rw [if_pos h]
  · by_cases hcov : df.has_covariate = false
    · rw [if_pos hcov]
    · rw [if_neg hcov]
      simp only
      rw [if_pos h]

/-- Trivial math library for closed CUPED evaluations. -/
def mathLib0 : MathLib :=
  { normCdf := fun _ => 0, normPpf := fun _ => 0, sqrt := fun _ => 0,
    log := fun _ => 0, e := 0 }

/-- Concrete rows with a constant covariate, for the C6 witness. -/
def cupedRowA : CupedRow :=
  { group := "A_control", converted := 0, pre_experiment_converted := 1 }

/-- Concrete rows with a constant covariate, for the C6 witness. -/
def cupedRowB : CupedRow :=
  { group := "B_variant", converted := 1, pre_experiment_converted := 1 }

/-- C6 witness: a two-row frame with a constant (zero-variance) covariate. -/
theorem cuped_unavailable_witness :
    (npVar ((([cupedRowA, cupedRowB] : List CupedRow).filter
          (fun r => r.group == "A_control")).map
          (fun r => r.pre_experiment_converted) ++
        (([cupedRowA, cupedRowB] : List CupedRow).filter
          (fun r => r.group == "B_variant")).map
          (fun r => r.pre_experiment_converted)) = some 0) ∧
    cupedAnalyze mathLib0 (1/20)
      { rows := [cupedRowA, cupedRowB], has_covariate := true }
      "A_control" "B_variant" = Option.none := by
  have hvar : npVar ((([cupedRowA, cupedRowB] : List CupedRow).filter
          (fun r => r.group == "A_control")).map
          (fun r => r.pre_experiment_converted) ++
        (([cupedRowA, cupedRowB] : List CupedRow).filter
          (fun r => r.group == "B_variant")).map
          (fun r => r.pre_experiment_converted)) = some 0 := by
    simp [List.filter, npVar, npMean, cupedRowA, cupedRowB]
  exact ⟨hvar, cuped_unavailable mathLib0 (1/20) _ "A_control" "B_variant"
    (Or.inr hvar)⟩

/-! ## Bayesian engine: Monte Carlo draws from the numpy global state (C8)

Embedding of `BayesianAnalyzer` (`src/bayesian_engine.py`, lines 86-296).
`BayesianAnalyzer.__init__` takes only `prior_alpha`, `prior_beta` and
`n_simulations`: there is no injectable random source.  Every call to
`np.random.beta` consumes draws from the numpy *global* random state; that
state is modelled as an underlying uniform stream plus a cursor
(`RandomState`), threaded through the sampling steps, with an abstract
transform `betaInv a b u` standing for the library's conversion of
underlying draws into a Beta(a, b) sample and an abstract `percentile` for
`np.percentile`. -/

/-- Model of the numpy global random state: the underlying stream of draws
and the current cursor into it. -/
structure RandomState where
  uniforms : ℕ → ℚ
  pos : ℕ

/-- `np.random.beta(a, b, n)`: take `n` samples off the global stream,
advancing the cursor. -/
def drawBeta (betaInv : ℚ → ℚ → ℚ → ℚ) (a b : ℚ) (n : ℕ) (s : RandomState) :
    List ℚ × RandomState :=
  ((List.range n).map (fun i => betaInv a b (s.uniforms (s.pos + i))),
    { uniforms := s.uniforms, pos := s.pos + n })

/-- `BayesianAnalyzer._monte_carlo_probability` (lines 136-173). -/
def monteCarloProbability (betaInv : ℚ → ℚ → ℚ → ℚ) (nSim : ℕ)
    (cp vp : ℚ × ℚ) (s : RandomState) : (ℚ × ℚ × ℚ) × RandomState :=
  let cs := drawBeta betaInv cp.1 cp.2 nSim s
  let vs := drawBeta betaInv vp.1 vp.2 nSim cs.2
  let probabilityVariantBetter :=
    ((List.zipWith (fun v c => if c < v then (1:ℚ) else 0) vs.1 cs.1).sum) /
      (nSim : ℚ)
  let lossVariant :=
    ((List.zipWith (fun c v => max (c - v) 0) cs.1 vs.1).sum) / (nSim : ℚ)
  let lossControl :=
    ((List.zipWith (fun v c => max (v - c) 0) vs.1 cs.1).sum) / (nSim : ℚ)
  ((probabilityVariantBetter, lossVariant, lossControl), vs.2)

/-- `BayesianAnalyzer._calculate_credible_interval` (lines 175-206): a
separate, independent pair of Monte Carlo draws. -/
def calculateCredibleInterval (betaInv : ℚ → ℚ → ℚ → ℚ)
    (percentile : List ℚ → ℚ → ℚ) (nSim : ℕ) (cp vp : ℚ × ℚ)
    (credibility : ℚ) (s : RandomState) : (ℚ × ℚ) × RandomState :=
  let cs := drawBeta betaInv cp.1 cp.2 nSim s
  let vs := drawBeta betaInv vp.1 vp.2 nSim cs.2
  let liftSamples := List.zipWith (fun v c => v - c) vs.1 cs.1
  let a := 1 - credibility
  ((percentile liftSamples (a / 2 * 100),
    percentile liftSamples ((1 - a / 2) * 100)), vs.2)

/-- `BayesianAnalyzer._calculate_posterior` (lines 117-134). -/
def calculatePosterior (priorAlpha priorBeta : ℚ) (successes : ℤ)
    (trials : ℕ) : ℚ × ℚ :=
  (priorAlpha + (successes : ℚ), priorBeta + ((trials : ℚ) - (successes : ℚ)))

/-- `BayesianAnalyzer.analyze` (lines 208-273), with the global random
state made explicit. -/
def bayesAnalyze (betaInv : ℚ → ℚ → ℚ → ℚ) (percentile : List ℚ → ℚ → ℚ)
    (priorAlpha priorBeta : ℚ) (nSim : ℕ) (df : List StatsRow)
    (controlLabel variantLabel : String) (s : RandomState) :
    BayesianResult × RandomState :=
  let controlData := (df.filter (fun r => r.group == controlLabel)).map
    (fun r => r.converted)
  let variantData := (df.filter (fun r => r.group == variantLabel)).map
    (fun r => r.converted)
  let controlSuccesses := ratTrunc controlData.sum
  let controlTrials := controlData.length
  let controlRate := controlData.sum / (controlTrials : ℚ)
  let variantSuccesses := ratTrunc variantData.sum
  let variantTrials := variantData.length
  let variantRate := variantData.sum / (variantTrials : ℚ)
  let controlPosterior :=
    calculatePosterior priorAlpha priorBeta controlSuccesses controlTrials
  let variantPosterior :=
    calculatePosterior priorAlpha priorBeta variantSuccesses variantTrials
  let mc := monteCarloProbability betaInv nSim controlPosterior variantPosterior s
  let ci := calculateCredibleInterval betaInv percentile nSim controlPosterior
    variantPosterior (95/100) mc.2
  let controlMean := controlPosterior.1 / (controlPosterior.1 + controlPosterior.2)
  let variantMean := variantPosterior.1 / (variantPosterior.1 + variantPosterior.2)
  let expectedLift := variantMean - controlMean
  ({ control_posterior := controlPosterior
     variant_posterior := variantPosterior
     control_conversion := controlRate
     variant_conversion := variantRate
     control_sample_size := controlTrials
     variant_sample_size := variantTrials
     probability_variant_better := mc.1.1
     credible_interval := ci.1
     expected_lift := expectedLift
     expected_loss_choosing_variant := mc.1.2.1
     expected_loss_choosing_control := mc.1.2.2 }, ci.2)

/-- Identity transform standing in for the Beta sampler. -/
def betaInv0 : ℚ → ℚ → ℚ → ℚ := fun _ _ u => u

/-- Trivial percentile routine for closed evaluations. -/
def percentile0 : List ℚ → ℚ → ℚ := fun _ _ => 0

/-- Concrete underlying stream: `1` at position `1`, else `0`. -/
def uniforms0 : ℕ → ℚ := fun n => if n = 1 then 1 else 0

/-- Two-row dataset for the C8 counterexample. -/
def dfBayesW : List StatsRow :=
  [{ group := "A_control", converted := 0 },
   { group := "B_variant", converted := 1 }]

/-- C8 counterexample: calling `analyze` twice in succession on identical
inputs — which is what calling the engine twice means, since `__init__`
accepts no random source and `np.random` state persists between calls —
returns different Monte Carlo probabilities: the first call consumes the
head of the global stream and the second continues from the advanced
cursor.  This refutes the claim that two calls on identical inputs are
bit-identical and that a seed can be injected. -/
theorem bayes_repeat_counterexample :
    (bayesAnalyze betaInv0 percentile0 1 1 1 dfBayesW "A_control" "B_variant"
        (bayesAnalyze betaInv0 percentile0 1 1 1 dfBayesW "A_control"
          "B_variant" { uniforms := uniforms0, pos := 0 }).2).1.probability_variant_better ≠
    (bayesAnalyze betaInv0 percentile0 1 1 1 dfBayesW "A_control" "B_variant"
        { uniforms := uniforms0, pos := 0 }).1.probability_variant_better := by
  simp only [bayesAnalyze, monteCarloProbability, calculateCredibleInterval,
    drawBeta, calculatePosterior, betaInv0, percentile0, uniforms0, dfBayesW,
    ratTrunc, List.filter, List.map, List.sum_cons, List.sum_nil,
    List.range_succ, List.range_zero, List.zipWith, List.length_cons,
    List.length_nil]
  norm_num

/-- C8 amended: the Monte Carlo outputs are a deterministic function of the
global random state at call time — two calls agree exactly when the global
state is identical before each (e.g. identically reseeded externally); a
call consumes exactly `4 * n_simulations` draws (so the state to restore is
well-defined), and the closed-form `expected_lift` does not depend on the
random state at all. -/
theorem bayes_analyze_state (betaInv : ℚ → ℚ → ℚ → ℚ)
    (percentile : List ℚ → ℚ → ℚ) (priorAlpha priorBeta : ℚ) (nSim : ℕ)
    (df : List StatsRow) (cl vl : String) (s t : RandomState) :
    (s = t →
      bayesAnalyze betaInv percentile priorAlpha priorBeta nSim df cl vl s =
      bayesAnalyze betaInv percentile priorAlpha priorBeta nSim df cl vl t) ∧
    (bayesAnalyze betaInv percentile priorAlpha priorBeta nSim df cl vl
      s).2.uniforms = s.uniforms ∧
    (bayesAnalyze betaInv percentile priorAlpha priorBeta nSim df cl vl
      s).2.pos = s.pos + 4 * nSim ∧
    (bayesAnalyze betaInv percentile priorAlpha priorBeta nSim df cl vl
      s).1.expected_lift =
    (bayesAnalyze betaInv percentile priorAlpha priorBeta nSim df cl vl
      t).1.expected_lift := by
  refine ⟨fun h => by rw [h], rfl, ?_, rfl⟩
  show s.pos + nSim + nSim + nSim + nSim = s.pos + 4 * nSim
  omega

/-- C8 witness for the amended claim: concrete instantiation with equal
pre-call states. -/
theorem bayes_analyze_state_witness :
    ({ uniforms := uniforms0, pos := 0 } : RandomState) =
      ({ uniforms := uniforms0, pos := 0 } : RandomState) ∧
    ((({ uniforms := uniforms0, pos := 0 } : RandomState) =
        ({ uniforms := uniforms0, pos := 0 } : RandomState) →
      bayesAnalyze betaInv0 percentile0 1 1 1 dfBayesW "A_control" "B_variant"
        { uniforms := uniforms0, pos := 0 } =
      bayesAnalyze betaInv0 percentile0 1 1 1 dfBayesW "A_control" "B_variant"
        { uniforms := uniforms0, pos := 0 }) ∧
    (bayesAnalyze betaInv0 percentile0 1 1 1 dfBayesW "A_control" "B_variant"
      { uniforms := uniforms0, pos := 0 }).2.uniforms = uniforms0 ∧
    (bayesAnalyze betaInv0 percentile0 1 1 1 dfBayesW "A_control" "B_variant"
      { uniforms := uniforms0, pos := 0 }).2.pos = 0 + 4 * 1 ∧
    (bayesAnalyze betaInv0 percentile0 1 1 1 dfBayesW "A_control" "B_variant"
      { uniforms := uniforms0, pos := 0 }).1.expected_lift =
    (bayesAnalyze betaInv0 percentile0 1 1 1 dfBayesW "A_control" "B_variant"
      { uniforms := uniforms0, pos := 0 }).1.expected_lift) :=
  ⟨rfl, bayes_analyze_state betaInv0 percentile0 1 1 1 dfBayesW "A_control"
    "B_variant" { uniforms := uniforms0, pos := 0 }
    { uniforms := uniforms0, pos := 0 }⟩

end GrowthExp
